import Mathlib

/-!
Verification of the salve (Relax NG validator) interleave walker, regexp
translator, conversion walker and CLI checks, against a shallow embedding
of the TypeScript sources.

Conventions of the embedding:
* mutable walker objects become explicit state passing: a method that
  mutates `this` and returns `r` becomes a function `State → State × R`;
* the TS value `false` used as an `EndResult` becomes `none`, and an array
  of errors (possibly empty — an empty array is truthy in JS) becomes
  `some l`;
* the sub-walkers of `InterleaveWalker` are arbitrary objects satisfying
  the walker interface, so the interleave functions are parametrised by a
  `WalkerOps` record of their methods.
-/

namespace Salve

/-- Event kinds fired at walkers (spec section 3: `enterStartTag`,
`leaveStartTag`, `attributeName`, `attributeValue`, `text`, `endTag`). -/
inductive EventName where
  | enterStartTag
  | leaveStartTag
  | endTag
  | attributeName
  | attributeValue
  | text
deriving DecidableEq, Repr

/-- Modelled from the spec: `isAttributeEvent` (from `patterns/base`,
not among the provided sources) holds of the two attribute event kinds. -/
def isAttributeEvent (name : EventName) : Bool :=
  name == .attributeName || name == .attributeValue

/-- An event: a kind together with its string parameters. -/
structure Event where
  name : EventName
  params : List String
deriving DecidableEq, Repr

/-- A validation error (opaque message). -/
structure VError where
  msg : String
deriving DecidableEq, Repr

/-- Result of `fireEvent`: the `matched` flag and the attached errors
(`InternalFireEventResult`). -/
structure FireResult where
  matched : Bool
  errors : List VError
deriving DecidableEq, Repr

/-- The result `new InternalFireEventResult(false)`: unmatched, no errors. -/
def noMatchResult : FireResult := { matched := false, errors := [] }

/-- The walker interface (spec section 4.5) seen by `InterleaveWalker`
from its two sub-walkers, over an abstract state type `W`.  `endWalker`
models the TS method `end`; an `EndResult` of `none` models the TS
return value `false`. -/
structure WalkerOps (W : Type) where
  fireEvent : W → EventName → List String → W × FireResult
  canEnd : W → Bool
  canEndAttribute : W → Bool
  endWalker : W → W × Option (List VError)
  endAttributes : W → W × Option (List VError)
  possible : W → List Event
  possibleAttributes : W → List Event

/-- State of `InterleaveWalker` (interleave.ts lines 30-37): the `ended`
flag, the memoised `hasAttrs` of the pattern, the two sub-walkers and the
two `canEnd*` booleans.  The name resolver is not modelled: the walker
only stores and forwards it. -/
structure InterleaveWalker (A B : Type) where
  ended : Bool
  hasAttrs : Bool
  walkerA : A
  walkerB : B
  canEndAttribute : Bool
  canEnd : Bool
deriving DecidableEq, Repr

/-- Construction of a fresh `InterleaveWalker` from the pattern
(interleave.ts lines 51-62): `ended := false`, sub-walkers freshly
created, `canEndAttribute := !hasAttrs || (a.canEndAttribute &&
b.canEndAttribute)`, `canEnd := a.canEnd && b.canEnd`. -/
def newInterleaveWalker {A B : Type} (opsA : WalkerOps A) (opsB : WalkerOps B)
    (hasAttrs : Bool) (wa : A) (wb : B) : InterleaveWalker A B :=
  { ended := false
    hasAttrs := hasAttrs
    walkerA := wa
    walkerB := wb
    canEndAttribute := !hasAttrs || (opsA.canEndAttribute wa && opsB.canEndAttribute wb)
    canEnd := opsA.canEnd wa && opsB.canEnd wb }

/-- Translation of `InterleaveWalker.fireEvent` (interleave.ts lines
132-177): attribute events are dropped when the pattern has no
attributes; nothing happens after `ended`; otherwise the event is fired
at `walkerA` and, only if `walkerA` did not match, at `walkerB`; the
`canEnd*` booleans are recomputed on a match. -/
def interleaveFireEvent {A B : Type} (opsA : WalkerOps A) (opsB : WalkerOps B)
    (w : InterleaveWalker A B) (name : EventName) (params : List String) :
    InterleaveWalker A B × FireResult :=
  let ret := noMatchResult
  let evIsAttributeEvent := isAttributeEvent name
  if evIsAttributeEvent && !w.hasAttrs then (w, ret)
  else if w.ended then (w, ret)
  else
    let fa := opsA.fireEvent w.walkerA name params
    let wA := fa.1
    let retA := fa.2
    if retA.matched then
      ({ w with
          walkerA := wA
          canEndAttribute :=
            if evIsAttributeEvent
            then opsA.canEndAttribute wA && opsB.canEndAttribute w.walkerB
            else w.canEndAttribute
          canEnd := opsA.canEnd wA && opsB.canEnd w.walkerB }, retA)
    else
      let fb := opsB.fireEvent w.walkerB name params
      let wB := fb.1
      let retB := fb.2
      if retB.matched then
        ({ w with
            walkerA := wA
            walkerB := wB
            canEndAttribute :=
              if evIsAttributeEvent
              then opsA.canEndAttribute wA && opsB.canEndAttribute wB
              else w.canEndAttribute
            canEnd := opsA.canEnd wA && opsB.canEnd wB }, retB)
      else
        ({ w with walkerA := wA, walkerB := wB }, ret)

/-- Translation of `InterleaveWalker.end` (interleave.ts lines 179-198). -/
def interleaveEnd {A B : Type} (opsA : WalkerOps A) (opsB : WalkerOps B)
    (w : InterleaveWalker A B) : InterleaveWalker A B × Option (List VError) :=
  if w.ended then (w, none)
  else if w.canEnd then ({ w with ended := true }, none)
  else
    let ea := opsA.endWalker w.walkerA
    let eb := opsB.endWalker w.walkerB
    let w' := { w with walkerA := ea.1, walkerB := eb.1 }
    match ea.2 with
    | some la =>
      match eb.2 with
      | none => (w', some la)
      | some lb => (w', some (la ++ lb))
    | none => (w', eb.2)

/-- Translation of `InterleaveWalker.endAttributes` (interleave.ts lines
200-213). -/
def interleaveEndAttributes {A B : Type} (opsA : WalkerOps A) (opsB : WalkerOps B)
    (w : InterleaveWalker A B) : InterleaveWalker A B × Option (List VError) :=
  if w.ended || w.canEndAttribute then (w, none)
  else
    let ea := opsA.endAttributes w.walkerA
    let eb := opsB.endAttributes w.walkerB
    let w' := { w with walkerA := ea.1, walkerB := eb.1 }
    match ea.2 with
    | some la =>
      match eb.2 with
      | some lb => (w', some (la ++ lb))
      | none => (w', some la)
    | none => (w', eb.2)

/-- Modelled from the spec: the `union` helper of `set.ts` (not among the
provided sources) adds to the first set the members of the second not
already present. -/
def eventSetUnion (s t : List Event) : List Event :=
  t.foldl (fun acc e => if acc.contains e then acc else acc ++ [e]) s

/-- Translation of `InterleaveWalker.possible` (interleave.ts lines
80-89): the empty set once ended, otherwise the union of the
sub-walkers' possibilities. -/
def interleavePossible {A B : Type} (opsA : WalkerOps A) (opsB : WalkerOps B)
    (w : InterleaveWalker A B) : List Event :=
  if w.ended then []
  else eventSetUnion (opsA.possible w.walkerA) (opsB.possible w.walkerB)

/-- Translation of `InterleaveWalker.possibleAttributes` (interleave.ts
lines 91-100). -/
def interleavePossibleAttributes {A B : Type} (opsA : WalkerOps A) (opsB : WalkerOps B)
    (w : InterleaveWalker A B) : List Event :=
  if w.ended then []
  else eventSetUnion (opsA.possibleAttributes w.walkerA)
    (opsB.possibleAttributes w.walkerB)

/-- Translation of `InterleaveWalker._clone` (interleave.ts lines 63-78):
every plain field is copied and the sub-walkers are cloned through the
memo; the sub-clone operations are abstract parameters. -/
def interleaveClone {A B : Type} (cloneA : A → A) (cloneB : B → B)
    (w : InterleaveWalker A B) : InterleaveWalker A B :=
  { ended := w.ended
    hasAttrs := w.hasAttrs
    walkerA := cloneA w.walkerA
    walkerB := cloneB w.walkerB
    canEndAttribute := w.canEndAttribute
    canEnd := w.canEnd }

/-- Feeding a sequence of events to an interleave walker, collecting the
`fireEvent` results in order. -/
def interleaveRun {A B : Type} (opsA : WalkerOps A) (opsB : WalkerOps B) :
    InterleaveWalker A B → List Event → InterleaveWalker A B × List FireResult
  | w, [] => (w, [])
  | w, e :: rest =>
    let s := interleaveFireEvent opsA opsB w e.name e.params
    let r := interleaveRun opsA opsB s.1 rest
    (r.1, s.2 :: r.2)

/-- Acceptance of an event sequence in the sense of the spec's
invariants section: every event matched and the final `end()` returned
`false`. -/
def interleaveAccepts {A B : Type} (opsA : WalkerOps A) (opsB : WalkerOps B)
    (w : InterleaveWalker A B) (events : List Event) : Bool :=
  let r := interleaveRun opsA opsB w events
  r.2.all (fun fr => fr.matched) && (interleaveEnd opsA opsB r.1).2.isNone

/-- Trivial sub-walker over `Unit`: matches nothing, can always end.
Used to instantiate hypotheses of the generic theorems at a concrete
type. -/
def unitOps : WalkerOps Unit :=
  { fireEvent := fun s _ _ => (s, noMatchResult)
    canEnd := fun _ => true
    canEndAttribute := fun _ => true
    endWalker := fun s => (s, none)
    endAttributes := fun s => (s, none)
    possible := fun _ => []
    possibleAttributes := fun _ => [] }

/-!
A concrete pattern language and its walkers.  The `Interleave` pattern
and its walker are translated from interleave.ts; the other patterns
are not among the provided sources, so their walkers are modelled from
the spec (section 4.5).  The fragment kept here — `empty`, `text`,
`notAllowed`, `element` with a literal name, `interleave` — is what the
claims about interleave need.
-/

/-- Patterns: `Empty`, `Text`, `NotAllowed`, `Element` with an exact
expanded name (a `Name` class) and a content pattern, and `Interleave`. -/
inductive Pattern where
  | empty
  | text
  | notAllowed
  | element (ns loc : String) (content : Pattern)
  | interleave (a b : Pattern)
deriving DecidableEq, Repr

/-- Nullability as memoised by the patterns.  The `interleave` clause is
the translation of `Interleave._computeHasEmptyPattern` (interleave.ts
lines 17-19); the other clauses are modelled from the spec: `Empty` and
`Text` walkers can end at once, `NotAllowed` matches nothing and never
ends, an `Element` always requires its tag. -/
def Pattern.hasEmptyPattern : Pattern → Bool
  | .empty => true
  | .text => true
  | .notAllowed => false
  | .element _ _ _ => false
  | .interleave a b => a.hasEmptyPattern && b.hasEmptyPattern

/-- Standard Relax NG nullability, written independently after the
derivative algorithm of the Relax NG literature: the empty pattern and
`text` are nullable, `notAllowed` and element patterns are not, and an
interleave is nullable exactly when both operands are. -/
def rngNullable : Pattern → Bool
  | .empty => true
  | .text => true
  | .notAllowed => false
  | .element _ _ _ => false
  | .interleave a b => rngNullable a && rngNullable b

/-- Modelled from the spec: `hasAttrs` says whether a pattern may
contribute to attribute matching; none of the kept patterns may, and an
interleave may when either operand may. -/
def Pattern.hasAttrs : Pattern → Bool
  | .empty => false
  | .text => false
  | .notAllowed => false
  | .element _ _ _ => false
  | .interleave a b => a.hasAttrs || b.hasAttrs

/-- Phase of an element walker (spec section 4.5: `expectStart`,
`inAttributes`, `inContent`, `ended`). -/
inductive ElPhase where
  | expectStart
  | inAttributes
  | inContent
  | endedEl
deriving DecidableEq, Repr

/-- Walker states for the concrete pattern language.  The
`interleaveW` constructor carries exactly the fields of
`InterleaveWalker`. -/
inductive PWalker where
  | emptyW
  | textW
  | notAllowedW
  | elementW (ns loc : String) (content : Pattern) (phase : ElPhase) (child : PWalker)
  | interleaveW (ended hasAttrs : Bool) (walkerA walkerB : PWalker)
      (canEndAttribute canEnd : Bool)
deriving DecidableEq, Repr

/-- The `canEnd` getter of each concrete walker.  Modelled from the
spec for the non-interleave walkers; the interleave clause reads the
stored field as in interleave.ts. -/
def pCanEnd : PWalker → Bool
  | .emptyW => true
  | .textW => true
  | .notAllowedW => false
  | .elementW _ _ _ phase _ => phase == .endedEl
  | .interleaveW _ _ _ _ _ canEnd => canEnd

/-- The `canEndAttribute` getter: no kept pattern other than interleave
constrains the attribute phase, so those walkers always allow it;
the interleave clause reads the stored field. -/
def pCanEndAttribute : PWalker → Bool
  | .interleaveW _ _ _ _ canEndAttribute _ => canEndAttribute
  | _ => true

/-- The `end` method of the concrete walkers.  The interleave clause is
the translation of `InterleaveWalker.end` (interleave.ts lines 179-198);
the others are modelled from the spec: returns `false` when the walker
can end, otherwise an error list. -/
def pEnd : PWalker → PWalker × Option (List VError)
  | .emptyW => (.emptyW, none)
  | .textW => (.textW, none)
  | .notAllowedW => (.notAllowedW, some [{ msg := "notAllowed" }])
  | .elementW ns loc c phase child =>
    if phase == .endedEl then (.elementW ns loc c phase child, none)
    else (.elementW ns loc c phase child, some [{ msg := "element incomplete" }])
  | .interleaveW ended hasAttrs wa wb cea ce =>
    if ended then (.interleaveW ended hasAttrs wa wb cea ce, none)
    else if ce then (.interleaveW true hasAttrs wa wb cea ce, none)
    else
      let ea := pEnd wa
      let eb := pEnd wb
      let w' := PWalker.interleaveW ended hasAttrs ea.1 eb.1 cea ce
      match ea.2 with
      | some la =>
        match eb.2 with
        | none => (w', some la)
        | some lb => (w', some (la ++ lb))
      | none => (w', eb.2)

/-- The `endAttributes` method.  The interleave clause translates
`InterleaveWalker.endAttributes` (interleave.ts lines 200-213); the
other walkers have nothing to check. -/
def pEndAttributes : PWalker → PWalker × Option (List VError)
  | .interleaveW ended hasAttrs wa wb cea ce =>
    if ended || cea then (.interleaveW ended hasAttrs wa wb cea ce, none)
    else
      let ea := pEndAttributes wa
      let eb := pEndAttributes wb
      let w' := PWalker.interleaveW ended hasAttrs ea.1 eb.1 cea ce
      match ea.2 with
      | some la =>
        match eb.2 with
        | some lb => (w', some (la ++ lb))
        | none => (w', some la)
      | none => (w', eb.2)
  | w => (w, none)

/-- The `fireEvent` method of the concrete walkers.  The interleave
clause is the translation of `InterleaveWalker.fireEvent`
(interleave.ts lines 132-177), inlined so that the recursion is
structural; `interleaveFireEventAgrees` below checks that it coincides
with the generic `interleaveFireEvent`.  The element clause is modelled
from the spec: `enterStartTag` with the right name enters the attribute
phase; in the attribute phase attribute events are routed to the child
and `leaveStartTag` (calling the child's `endAttributes`) enters the
content phase; in the content phase events are routed to the child and,
when the child does not match, a matching `endTag` (calling the child's
`end`) ends the element; an ended element matches nothing. -/
def pFireEvent : PWalker → EventName → List String → PWalker × FireResult
  | .emptyW, _, _ => (.emptyW, noMatchResult)
  | .textW, n, _ =>
    if n == .text then (.textW, { matched := true, errors := [] })
    else (.textW, noMatchResult)
  | .notAllowedW, _, _ => (.notAllowedW, noMatchResult)
  | .elementW ns loc c phase child, n, p =>
    match phase with
    | .expectStart =>
      if n == .enterStartTag && p == [ns, loc] then
        (.elementW ns loc c .inAttributes child, { matched := true, errors := [] })
      else (.elementW ns loc c .expectStart child, noMatchResult)
    | .inAttributes =>
      if isAttributeEvent n then
        let f := pFireEvent child n p
        (.elementW ns loc c .inAttributes f.1, f.2)
      else if n == .leaveStartTag then
        let ea := pEndAttributes child
        (.elementW ns loc c .inContent ea.1,
          { matched := true, errors := ea.2.getD [] })
      else (.elementW ns loc c .inAttributes child, noMatchResult)
    | .inContent =>
      let f := pFireEvent child n p
      if f.2.matched then (.elementW ns loc c .inContent f.1, f.2)
      else if n == .endTag && p == [ns, loc] then
        let ec := pEnd f.1
        (.elementW ns loc c .endedEl ec.1,
          { matched := true, errors := ec.2.getD [] })
      else (.elementW ns loc c .inContent f.1, noMatchResult)
    | .endedEl => (.elementW ns loc c .endedEl child, noMatchResult)
  | .interleaveW ended hasAttrs wa wb cea ce, n, p =>
    let w := PWalker.interleaveW ended hasAttrs wa wb cea ce
    if isAttributeEvent n && !hasAttrs then (w, noMatchResult)
    else if ended then (w, noMatchResult)
    else
      let fa := pFireEvent wa n p
      if fa.2.matched then
        (.interleaveW ended hasAttrs fa.1 wb
          (if isAttributeEvent n
           then pCanEndAttribute fa.1 && pCanEndAttribute wb
           else cea)
          (pCanEnd fa.1 && pCanEnd wb), fa.2)
      else
        let fb := pFireEvent wb n p
        if fb.2.matched then
          (.interleaveW ended hasAttrs fa.1 fb.1
            (if isAttributeEvent n
             then pCanEndAttribute fa.1 && pCanEndAttribute fb.1
             else cea)
            (pCanEnd fa.1 && pCanEnd fb.1), fb.2)
        else (.interleaveW ended hasAttrs fa.1 fb.1 cea ce, noMatchResult)

/-- The `possibleAttributes` method, modelled from the spec; for the
interleave clause, from interleave.ts lines 91-100. -/
def pPossibleAttributes : PWalker → List Event
  | .interleaveW ended _ wa wb _ _ =>
    if ended then []
    else eventSetUnion (pPossibleAttributes wa) (pPossibleAttributes wb)
  | _ => []

/-- The `possible` method, modelled from the spec; for the interleave
clause, from interleave.ts lines 80-89. -/
def pPossible : PWalker → List Event
  | .emptyW => []
  | .textW => [{ name := .text, params := [] }]
  | .notAllowedW => []
  | .elementW ns loc _ phase child =>
    match phase with
    | .expectStart => [{ name := .enterStartTag, params := [ns, loc] }]
    | .inAttributes => eventSetUnion (pPossibleAttributes child)
        [{ name := .leaveStartTag, params := [] }]
    | .inContent => eventSetUnion (pPossible child)
        [{ name := .endTag, params := [ns, loc] }]
    | .endedEl => []
  | .interleaveW ended _ wa wb _ _ =>
    if ended then [] else eventSetUnion (pPossible wa) (pPossible wb)

/-- One `WalkerOps` record bundling the concrete walker methods. -/
def pOps : WalkerOps PWalker :=
  { fireEvent := pFireEvent
    canEnd := pCanEnd
    canEndAttribute := pCanEndAttribute
    endWalker := pEnd
    endAttributes := pEndAttributes
    possible := pPossible
    possibleAttributes := pPossibleAttributes }

/-- Creation of a walker from a pattern (`newWalker`).  The interleave
clause is the translation of the `InterleaveWalker` constructor
(interleave.ts lines 51-62); the others are modelled from the spec. -/
def Pattern.newWalker : Pattern → PWalker
  | .empty => .emptyW
  | .text => .textW
  | .notAllowed => .notAllowedW
  | .element ns loc c => .elementW ns loc c .expectStart c.newWalker
  | .interleave a b =>
    let wa := a.newWalker
    let wb := b.newWalker
    let hasAttrs := a.hasAttrs || b.hasAttrs
    .interleaveW false hasAttrs wa wb
      (!hasAttrs || (pCanEndAttribute wa && pCanEndAttribute wb))
      (pCanEnd wa && pCanEnd wb)

/-- Feeding a sequence of events to a concrete walker, collecting the
results. -/
def pRun : PWalker → List Event → PWalker × List FireResult
  | w, [] => (w, [])
  | w, e :: rest =>
    let s := pFireEvent w e.name e.params
    let r := pRun s.1 rest
    (r.1, s.2 :: r.2)

/-- Acceptance of an event sequence by a concrete walker: every event
matched and the final `end()` returned `false`. -/
def pAccepts (w : PWalker) (events : List Event) : Bool :=
  let r := pRun w events
  r.2.all (fun fr => fr.matched) && (pEnd r.1).2.isNone

/-- The inlined interleave clause of `pFireEvent` coincides with the
generic `interleaveFireEvent` applied to the concrete walker methods. -/
theorem interleaveFireEventAgrees (ended hasAttrs : Bool) (wa wb : PWalker)
    (cea ce : Bool) (n : EventName) (p : List String) :
    pFireEvent (.interleaveW ended hasAttrs wa wb cea ce) n p =
      (let r := interleaveFireEvent pOps pOps
        ⟨ended, hasAttrs, wa, wb, cea, ce⟩ n p
       (.interleaveW r.1.ended r.1.hasAttrs r.1.walkerA r.1.walkerB
          r.1.canEndAttribute r.1.canEnd, r.2)) := by
  simp only [pFireEvent, interleaveFireEvent, pOps]
  split
  · rfl
  · split
    · rfl
    · split
      · rfl
      · split
        · rfl
        · rfl

/-- Which branch consumed an event: branch A consumed it when the
interleave neither short-circuits (attribute event without attributes,
or already ended) nor fails to match it on `walkerA`.  This mirrors the
order of `InterleaveWalker.fireEvent`. -/
def consumedByA (w : PWalker) (e : Event) : Bool :=
  match w with
  | .interleaveW ended hasAttrs wa _ _ _ =>
    !(isAttributeEvent e.name && !hasAttrs) && !ended &&
      (pFireEvent wa e.name e.params).2.matched
  | _ => false

/-- Start-tag minus end-tag count of the events consumed by branch A of
an interleave walker along an event sequence — the spec's notion of the
branch being "in flight" when positive. -/
def pBalanceA : PWalker → List Event → Int
  | _, [] => 0
  | w, e :: rest =>
    (if consumedByA w e then
       (if e.name == .enterStartTag then (1 : Int)
        else if e.name == .endTag then -1 else 0)
     else 0) + pBalanceA (pFireEvent w e.name e.params).1 rest

/-- The `walkerB` component of a concrete interleave walker. -/
def pSubWalkerB : PWalker → Option PWalker
  | .interleaveW _ _ _ wb _ _ => some wb
  | _ => none

/-!  Concrete instances used by the counterexamples. -/

/-- Branch A of the C1 counterexample: the element `x` with empty
content. -/
def c1PatA : Pattern := .element "" "x" .empty

/-- Branch B of the C1 counterexample: the element `y` with empty
content. -/
def c1PatB : Pattern := .element "" "y" .empty

/-- Fresh walker of `Interleave(c1PatA, c1PatB)`. -/
def c1Start : PWalker := (Pattern.interleave c1PatA c1PatB).newWalker

/-- The event prefix that leaves branch A in flight: the start tag of
`x`, with no matching end tag yet. -/
def c1Events : List Event := [{ name := .enterStartTag, params := ["", "x"] }]

/-- The walker after the prefix. -/
def c1Mid : PWalker := (pRun c1Start c1Events).1

/-- Branch A of the C2 counterexample: element `x` with empty content. -/
def c2PatA : Pattern := .element "" "x" .empty

/-- Branch B of the C2 counterexample: element `x` containing one
element `y`. -/
def c2PatB : Pattern := .element "" "x" (.element "" "y" .empty)

/-- The event sequence of the C2 counterexample: an `x` containing a
`y`, followed by an empty `x`. -/
def c2Events : List Event :=
  [{ name := .enterStartTag, params := ["", "x"] },
   { name := .leaveStartTag, params := [] },
   { name := .enterStartTag, params := ["", "y"] },
   { name := .leaveStartTag, params := [] },
   { name := .endTag, params := ["", "y"] },
   { name := .endTag, params := ["", "x"] },
   { name := .enterStartTag, params := ["", "x"] },
   { name := .leaveStartTag, params := [] },
   { name := .endTag, params := ["", "x"] }]

/-!  Theorems for the claims. -/

/-- C1, counterexample.  After the start tag of `x`, branch A of
`Interleave(element x, element y)` has consumed one more start tag than
end tags (it is "in flight", balance 1), yet the next `fireEvent` — the
start tag of `y` — is not consumed by branch A: it is matched, and it is
branch B whose state changes.  So `fireEvent` does not feed events only
to the in-flight branch. -/
theorem interleave_in_flight_counterexample :
    pBalanceA c1Start c1Events = 1 ∧
    consumedByA c1Mid { name := .enterStartTag, params := ["", "y"] } = false ∧
    (pFireEvent c1Mid .enterStartTag ["", "y"]).2.matched = true ∧
    pSubWalkerB (pFireEvent c1Mid .enterStartTag ["", "y"]).1 ≠ pSubWalkerB c1Mid := by
  decide

/-- C1, amended.  `InterleaveWalker.fireEvent` tracks no tag balance at
all: whenever the event is not short-circuited (attribute event on an
attribute-free pattern, or walker already ended), the event is always
offered to branch A first; if branch A matches, branch B is left
untouched and the result is branch A's; only if branch A does not match
is the event offered to branch B. -/
theorem interleave_first_match_priority {A B : Type}
    (opsA : WalkerOps A) (opsB : WalkerOps B) (w : InterleaveWalker A B)
    (n : EventName) (p : List String)
    (hshort : (isAttributeEvent n && !w.hasAttrs) = false)
    (hended : w.ended = false) :
    ((opsA.fireEvent w.walkerA n p).2.matched = true →
      (interleaveFireEvent opsA opsB w n p).1.walkerB = w.walkerB ∧
      (interleaveFireEvent opsA opsB w n p).2 = (opsA.fireEvent w.walkerA n p).2) ∧
    ((opsA.fireEvent w.walkerA n p).2.matched = false →
      (interleaveFireEvent opsA opsB w n p).1.walkerA = (opsA.fireEvent w.walkerA n p).1 ∧
      (interleaveFireEvent opsA opsB w n p).1.walkerB = (opsB.fireEvent w.walkerB n p).1) := by
  constructor
  · intro hm
    simp [interleaveFireEvent, hshort, hended, hm]
  · intro hm
    by_cases hb : (opsB.fireEvent w.walkerB n p).2.matched <;>
      simp [interleaveFireEvent, hshort, hended, hm, hb]

/-- Witness for the amended C1 theorem at the trivial sub-walkers. -/
theorem interleave_first_match_priority_witness :
    (interleaveFireEvent unitOps unitOps
        (newInterleaveWalker unitOps unitOps false () ()) .text []).1.walkerA = () ∧
    (interleaveFireEvent unitOps unitOps
        (newInterleaveWalker unitOps unitOps false () ()) .text []).1.walkerB = () := by
  have h := interleave_first_match_priority unitOps unitOps
    (newInterleaveWalker unitOps unitOps false () ()) .text [] rfl rfl
  exact h.2 rfl

/-- C2, counterexample.  With overlapping branches (both start with the
element `x` — a schema that violates the Relax NG restriction on
interleave), the greedy first-branch policy of `fireEvent` makes the
accepted language depend on the operand order: the sequence "an `x`
containing a `y`, then an empty `x`" is accepted by
`Interleave(c2PatB, c2PatA)` but rejected by
`Interleave(c2PatA, c2PatB)`. -/
theorem interleave_comm_counterexample :
    pAccepts (Pattern.newWalker (.interleave c2PatB c2PatA)) c2Events = true ∧
    pAccepts (Pattern.newWalker (.interleave c2PatA c2PatB)) c2Events = false := by
  decide

/-- C10.  Once `ended` is set, `fireEvent` returns unmatched with no
errors and leaves the whole walker — both sub-walkers included —
unchanged (neither sub-walker is even consulted), `possible` and
`possibleAttributes` return the empty set, and `end` and
`endAttributes` return `false`. -/
theorem interleave_ended_frame {A B : Type}
    (opsA : WalkerOps A) (opsB : WalkerOps B) (w : InterleaveWalker A B)
    (h : w.ended = true) :
    (∀ n p, interleaveFireEvent opsA opsB w n p = (w, noMatchResult)) ∧
    interleavePossible opsA opsB w = [] ∧
    interleavePossibleAttributes opsA opsB w = [] ∧
    interleaveEnd opsA opsB w = (w, none) ∧
    interleaveEndAttributes opsA opsB w = (w, none) := by
  refine ⟨fun n p => ?_, ?_, ?_, ?_, ?_⟩ <;>
    simp [interleaveFireEvent, interleavePossible, interleavePossibleAttributes,
      interleaveEnd, interleaveEndAttributes, h]

/-- An ended interleave walker over trivial sub-walkers. -/
def endedUnitWalker : InterleaveWalker Unit Unit :=
  { ended := true, hasAttrs := false, walkerA := (), walkerB := ()
    canEndAttribute := true, canEnd := true }

/-- Witness for the C10 theorem at a concrete ended walker. -/
theorem interleave_ended_frame_witness :
    interleaveFireEvent unitOps unitOps endedUnitWalker .text []
        = (endedUnitWalker, noMatchResult) ∧
    interleavePossible unitOps unitOps endedUnitWalker = [] ∧
    interleavePossibleAttributes unitOps unitOps endedUnitWalker = [] ∧
    interleaveEnd unitOps unitOps endedUnitWalker = (endedUnitWalker, none) ∧
    interleaveEndAttributes unitOps unitOps endedUnitWalker = (endedUnitWalker, none) := by
  obtain ⟨h1, h2, h3, h4, h5⟩ :=
    interleave_ended_frame unitOps unitOps endedUnitWalker rfl
  exact ⟨h1 .text [], h2, h3, h4, h5⟩

/-- Memoised nullability agrees with the standard Relax NG nullability
on every pattern. -/
theorem hasEmpty_eq_rngNullable (p : Pattern) :
    p.hasEmptyPattern = rngNullable p := by
  induction p <;> simp [Pattern.hasEmptyPattern, rngNullable, *]

/-- Part of the walker contract (spec section 4.5): a walker that
reports `matched = false` did not consume the event, so its state is
unchanged. -/
def UnmatchedPreserves {W : Type} (ops : WalkerOps W) : Prop :=
  ∀ s n p, (ops.fireEvent s n p).2.matched = false → (ops.fireEvent s n p).1 = s

/-- Part of the walker contract: `canEndAttribute` concerns only the
attribute phase, so firing a non-attribute event does not change it. -/
def NonAttrKeepsCanEndAttribute {W : Type} (ops : WalkerOps W) : Prop :=
  ∀ s n p, isAttributeEvent n = false →
    ops.canEndAttribute (ops.fireEvent s n p).1 = ops.canEndAttribute s

/-- The equivalence of the spec's invariant section, assumed of the
sub-walkers: `canEnd` holds exactly when `end()` returns `false`. -/
def CanEndIffEndOk {W : Type} (ops : WalkerOps W) : Prop :=
  ∀ s, ops.canEnd s = true ↔ (ops.endWalker s).2 = none

/-- `fireEvent` never changes the `ended` and `hasAttrs` fields. -/
theorem interleave_fire_const {A B : Type}
    (opsA : WalkerOps A) (opsB : WalkerOps B) (w : InterleaveWalker A B)
    (n : EventName) (p : List String) :
    (interleaveFireEvent opsA opsB w n p).1.ended = w.ended ∧
    (interleaveFireEvent opsA opsB w n p).1.hasAttrs = w.hasAttrs := by
  by_cases c1 : (isAttributeEvent n && !w.hasAttrs) = true <;>
  by_cases c2 : w.ended = true <;>
  by_cases c3 : (opsA.fireEvent w.walkerA n p).2.matched = true <;>
  by_cases c4 : (opsB.fireEvent w.walkerB n p).2.matched = true <;>
  simp [interleaveFireEvent, c1, c2, c3, c4]

/-- The two `canEnd*` field equations are preserved by one `fireEvent`
step, given the sub-walker contract. -/
theorem interleave_step_inv {A B : Type}
    (opsA : WalkerOps A) (opsB : WalkerOps B)
    (hA : UnmatchedPreserves opsA) (hB : UnmatchedPreserves opsB)
    (hA2 : NonAttrKeepsCanEndAttribute opsA)
    (hB2 : NonAttrKeepsCanEndAttribute opsB)
    (w : InterleaveWalker A B) (n : EventName) (p : List String)
    (h1 : w.canEnd = (opsA.canEnd w.walkerA && opsB.canEnd w.walkerB))
    (h2 : w.canEndAttribute
        = (!w.hasAttrs || (opsA.canEndAttribute w.walkerA
            && opsB.canEndAttribute w.walkerB))) :
    (interleaveFireEvent opsA opsB w n p).1.canEnd
        = (opsA.canEnd (interleaveFireEvent opsA opsB w n p).1.walkerA
            && opsB.canEnd (interleaveFireEvent opsA opsB w n p).1.walkerB) ∧
    (interleaveFireEvent opsA opsB w n p).1.canEndAttribute
        = (!(interleaveFireEvent opsA opsB w n p).1.hasAttrs
            || (opsA.canEndAttribute (interleaveFireEvent opsA opsB w n p).1.walkerA
              && opsB.canEndAttribute (interleaveFireEvent opsA opsB w n p).1.walkerB)) := by
  by_cases c1 : (isAttributeEvent n && !w.hasAttrs) = true
  · simpa [interleaveFireEvent, c1] using ⟨h1, h2⟩
  · by_cases c2 : w.ended = true
    · simpa [interleaveFireEvent, c1, c2] using ⟨h1, h2⟩
    · by_cases c3 : (opsA.fireEvent w.walkerA n p).2.matched = true
      · by_cases ca : isAttributeEvent n = true
        · have hh : w.hasAttrs = true := by
            cases hq : w.hasAttrs with
            | false => exact absurd (by simp [ca, hq]) c1
            | true => rfl
          simp [interleaveFireEvent, c1, c2, c3, ca, hh]
        · have ca' : isAttributeEvent n = false := by
            simpa using ca
          simp only [interleaveFireEvent, c1, c2, c3, ca']
          constructor
          · simp
          · simp [hA2 w.walkerA n p ca', h2]
      · have hwa : (opsA.fireEvent w.walkerA n p).1 = w.walkerA :=
          hA w.walkerA n p (by simpa using c3)
        by_cases c4 : (opsB.fireEvent w.walkerB n p).2.matched = true
        · by_cases ca : isAttributeEvent n = true
          · have hh : w.hasAttrs = true := by
              cases hq : w.hasAttrs with
              | false => exact absurd (by simp [ca, hq]) c1
              | true => rfl
            simp [interleaveFireEvent, c1, c2, c3, c4, ca, hh]
          · have ca' : isAttributeEvent n = false := by simpa using ca
            simp only [interleaveFireEvent, c1, c2, c3, c4, ca']
            constructor
            · simp
            · simp [hA2 w.walkerA n p ca', hB2 w.walkerB n p ca', hwa, h2]
        · have hwb : (opsB.fireEvent w.walkerB n p).1 = w.walkerB :=
            hB w.walkerB n p (by simpa using c4)
          simp [interleaveFireEvent, c1, c2, c3, c4, hwa, hwb, h1, h2]

/-- Along any run of `fireEvent` calls from a fresh walker the `ended`
flag stays `false`, `hasAttrs` is unchanged, and the two `canEnd*`
field equations hold. -/
theorem interleave_run_inv {A B : Type}
    (opsA : WalkerOps A) (opsB : WalkerOps B)
    (hA : UnmatchedPreserves opsA) (hB : UnmatchedPreserves opsB)
    (hA2 : NonAttrKeepsCanEndAttribute opsA)
    (hB2 : NonAttrKeepsCanEndAttribute opsB)
    (events : List Event) (w : InterleaveWalker A B)
    (h0 : w.ended = false)
    (h1 : w.canEnd = (opsA.canEnd w.walkerA && opsB.canEnd w.walkerB))
    (h2 : w.canEndAttribute
        = (!w.hasAttrs || (opsA.canEndAttribute w.walkerA
            && opsB.canEndAttribute w.walkerB))) :
    (interleaveRun opsA opsB w events).1.ended = false ∧
    (interleaveRun opsA opsB w events).1.canEnd
        = (opsA.canEnd (interleaveRun opsA opsB w events).1.walkerA
            && opsB.canEnd (interleaveRun opsA opsB w events).1.walkerB) ∧
    (interleaveRun opsA opsB w events).1.canEndAttribute
        = (!(interleaveRun opsA opsB w events).1.hasAttrs
            || (opsA.canEndAttribute (interleaveRun opsA opsB w events).1.walkerA
              && opsB.canEndAttribute (interleaveRun opsA opsB w events).1.walkerB)) := by
  induction events generalizing w with
  | nil => exact ⟨h0, h1, h2⟩
  | cons e rest ih =>
    have hc := interleave_fire_const opsA opsB w e.name e.params
    have hs := interleave_step_inv opsA opsB hA hB hA2 hB2 w e.name e.params h1 h2
    have := ih (interleaveFireEvent opsA opsB w e.name e.params).1
      (by rw [hc.1, h0]) hs.1 hs.2
    simpa [interleaveRun] using this

/-- C5.  After construction and after every sequence of `fireEvent`
calls, `canEnd = walkerA.canEnd && walkerB.canEnd` and
`canEndAttribute = !hasAttrs || (walkerA.canEndAttribute &&
walkerB.canEndAttribute)`, provided the sub-walkers honour the walker
contract (an unmatched event leaves them unchanged, and non-attribute
events do not change `canEndAttribute`). -/
theorem interleave_canEnd_equations {A B : Type}
    (opsA : WalkerOps A) (opsB : WalkerOps B)
    (hA : UnmatchedPreserves opsA) (hB : UnmatchedPreserves opsB)
    (hA2 : NonAttrKeepsCanEndAttribute opsA)
    (hB2 : NonAttrKeepsCanEndAttribute opsB)
    (hasAttrs : Bool) (wa : A) (wb : B) (events : List Event) :
    (interleaveRun opsA opsB
        (newInterleaveWalker opsA opsB hasAttrs wa wb) events).1.canEnd
      = (opsA.canEnd (interleaveRun opsA opsB
          (newInterleaveWalker opsA opsB hasAttrs wa wb) events).1.walkerA
        && opsB.canEnd (interleaveRun opsA opsB
          (newInterleaveWalker opsA opsB hasAttrs wa wb) events).1.walkerB) ∧
    (interleaveRun opsA opsB
        (newInterleaveWalker opsA opsB hasAttrs wa wb) events).1.canEndAttribute
      = (!(interleaveRun opsA opsB
            (newInterleaveWalker opsA opsB hasAttrs wa wb) events).1.hasAttrs
        || (opsA.canEndAttribute (interleaveRun opsA opsB
              (newInterleaveWalker opsA opsB hasAttrs wa wb) events).1.walkerA
          && opsB.canEndAttribute (interleaveRun opsA opsB
              (newInterleaveWalker opsA opsB hasAttrs wa wb) events).1.walkerB)) := by
  have h := interleave_run_inv opsA opsB hA hB hA2 hB2 events
    (newInterleaveWalker opsA opsB hasAttrs wa wb) rfl rfl rfl
  exact ⟨h.2.1, h.2.2⟩

/-- Witness for the C5 theorem: trivial sub-walkers, one event. -/
theorem interleave_canEnd_equations_witness :
    (interleaveRun unitOps unitOps
        (newInterleaveWalker unitOps unitOps false () ())
        [{ name := .text, params := [] }]).1.canEnd = true := by
  have h := interleave_canEnd_equations unitOps unitOps
    (fun _s _n _p _h => rfl) (fun _s _n _p _h => rfl)
    (fun _s _n _p _h => rfl) (fun _s _n _p _h => rfl)
    false () () [{ name := .text, params := [] }]
  simpa [unitOps] using h.1

/-- C3.  For every walker reachable by an event sequence from a fresh
`InterleaveWalker`, `canEnd` holds exactly when `end()` returns `false`
— assuming the sub-walkers honour the contract and satisfy the same
equivalence. -/
theorem interleave_canEnd_iff_end_ok {A B : Type}
    (opsA : WalkerOps A) (opsB : WalkerOps B)
    (hA : UnmatchedPreserves opsA) (hB : UnmatchedPreserves opsB)
    (hA2 : NonAttrKeepsCanEndAttribute opsA)
    (hB2 : NonAttrKeepsCanEndAttribute opsB)
    (hEqA : CanEndIffEndOk opsA) (hEqB : CanEndIffEndOk opsB)
    (hasAttrs : Bool) (wa : A) (wb : B) (events : List Event) :
    ((interleaveRun opsA opsB
        (newInterleaveWalker opsA opsB hasAttrs wa wb) events).1.canEnd = true)
      ↔ ((interleaveEnd opsA opsB (interleaveRun opsA opsB
          (newInterleaveWalker opsA opsB hasAttrs wa wb) events).1).2 = none) := by
  have h := interleave_run_inv opsA opsB hA hB hA2 hB2 events
    (newInterleaveWalker opsA opsB hasAttrs wa wb) rfl rfl rfl
  set w := (interleaveRun opsA opsB
    (newInterleaveWalker opsA opsB hasAttrs wa wb) events).1 with hw
  constructor
  · intro hce
    cases he : w.ended <;> simp [interleaveEnd, he, hce]
  · intro hnone
    by_contra hce
    have hce' : w.canEnd = false := by
      cases hq : w.canEnd with
      | false => rfl
      | true => exact absurd hq hce
    have hsplit : opsA.canEnd w.walkerA = false ∨ opsB.canEnd w.walkerB = false := by
      cases hqa : opsA.canEnd w.walkerA with
      | false => exact Or.inl rfl
      | true =>
        cases hqb : opsB.canEnd w.walkerB with
        | false => exact Or.inr rfl
        | true =>
          rw [h.2.1, hqa, hqb] at hce'
          simp at hce'
    rcases hea : (opsA.endWalker w.walkerA).2 with _ | la <;>
      rcases heb : (opsB.endWalker w.walkerB).2 with _ | lb
    · rcases hsplit with ha | hb
      · have hca := (hEqA w.walkerA).2 hea
        rw [hca] at ha
        simp at ha
      · have hcb := (hEqB w.walkerB).2 heb
        rw [hcb] at hb
        simp at hb
    · simp [interleaveEnd, h.1, hce', hea, heb] at hnone
    · simp [interleaveEnd, h.1, hce', hea, heb] at hnone
    · simp [interleaveEnd, h.1, hce', hea, heb] at hnone

/-- Witness for the C3 theorem: trivial sub-walkers, one event. -/
theorem interleave_canEnd_iff_end_ok_witness :
    ((interleaveRun unitOps unitOps
        (newInterleaveWalker unitOps unitOps false () ())
        [{ name := .text, params := [] }]).1.canEnd = true)
      ↔ ((interleaveEnd unitOps unitOps (interleaveRun unitOps unitOps
          (newInterleaveWalker unitOps unitOps false () ())
          [{ name := .text, params := [] }]).1).2 = none) :=
  interleave_canEnd_iff_end_ok unitOps unitOps
    (fun _s _n _p _h => rfl) (fun _s _n _p _h => rfl)
    (fun _s _n _p _h => rfl) (fun _s _n _p _h => rfl)
    (fun _s => by simp [unitOps]) (fun _s => by simp [unitOps])
    false () () [{ name := .text, params := [] }]

/-- Behaviour preservation of a sub-walker clone — the recursive
content of the claim's parenthesis "(sub-walkers cloned through the
same memo)": firing an event commutes with cloning and returns the
same result. -/
def CloneFireCommutes {W : Type} (ops : WalkerOps W) (cl : W → W) : Prop :=
  ∀ s n p, ops.fireEvent (cl s) n p
      = (cl (ops.fireEvent s n p).1, (ops.fireEvent s n p).2)

/-- A sub-walker clone reports the same `canEnd`. -/
def CloneKeepsCanEnd {W : Type} (ops : WalkerOps W) (cl : W → W) : Prop :=
  ∀ s, ops.canEnd (cl s) = ops.canEnd s

/-- A sub-walker clone reports the same `canEndAttribute`. -/
def CloneKeepsCanEndAttribute {W : Type} (ops : WalkerOps W) (cl : W → W) : Prop :=
  ∀ s, ops.canEndAttribute (cl s) = ops.canEndAttribute s

/-- A sub-walker clone returns the same `end()` result. -/
def CloneKeepsEndResult {W : Type} (ops : WalkerOps W) (cl : W → W) : Prop :=
  ∀ s, (ops.endWalker (cl s)).2 = (ops.endWalker s).2

/-- A sub-walker clone returns the same `endAttributes()` result. -/
def CloneKeepsEndAttributesResult {W : Type} (ops : WalkerOps W) (cl : W → W) : Prop :=
  ∀ s, (ops.endAttributes (cl s)).2 = (ops.endAttributes s).2

/-- One `fireEvent` step commutes with `interleaveClone`. -/
theorem interleave_clone_fire {A B : Type}
    (opsA : WalkerOps A) (opsB : WalkerOps B) (clA : A → A) (clB : B → B)
    (hFA : CloneFireCommutes opsA clA) (hFB : CloneFireCommutes opsB clB)
    (hCA : CloneKeepsCanEnd opsA clA) (hCB : CloneKeepsCanEnd opsB clB)
    (hAA : CloneKeepsCanEndAttribute opsA clA)
    (hAB : CloneKeepsCanEndAttribute opsB clB)
    (w : InterleaveWalker A B) (n : EventName) (p : List String) :
    interleaveFireEvent opsA opsB (interleaveClone clA clB w) n p
      = (interleaveClone clA clB (interleaveFireEvent opsA opsB w n p).1,
         (interleaveFireEvent opsA opsB w n p).2) := by
  simp only [CloneFireCommutes, CloneKeepsCanEnd, CloneKeepsCanEndAttribute]
    at hFA hFB hCA hCB hAA hAB
  by_cases c1 : (isAttributeEvent n && !w.hasAttrs) = true <;>
  by_cases c2 : w.ended = true <;>
  by_cases c3 : (opsA.fireEvent w.walkerA n p).2.matched = true <;>
  by_cases c4 : (opsB.fireEvent w.walkerB n p).2.matched = true <;>
  simp [interleaveFireEvent, interleaveClone, hFA, hFB, hCA, hCB, hAA, hAB,
    c1, c2, c3, c4]

/-- A whole run of `fireEvent` calls commutes with `interleaveClone`. -/
theorem interleave_clone_run {A B : Type}
    (opsA : WalkerOps A) (opsB : WalkerOps B) (clA : A → A) (clB : B → B)
    (hFA : CloneFireCommutes opsA clA) (hFB : CloneFireCommutes opsB clB)
    (hCA : CloneKeepsCanEnd opsA clA) (hCB : CloneKeepsCanEnd opsB clB)
    (hAA : CloneKeepsCanEndAttribute opsA clA)
    (hAB : CloneKeepsCanEndAttribute opsB clB)
    (events : List Event) (w : InterleaveWalker A B) :
    interleaveRun opsA opsB (interleaveClone clA clB w) events
      = (interleaveClone clA clB (interleaveRun opsA opsB w events).1,
         (interleaveRun opsA opsB w events).2) := by
  induction events generalizing w with
  | nil => simp [interleaveRun]
  | cons e rest ih =>
    have hs := interleave_clone_fire opsA opsB clA clB hFA hFB hCA hCB hAA hAB
      w e.name e.params
    simp [interleaveRun, hs, ih]

/-- C4.  Feeding any event sequence to a walker and to its `_clone`
(sub-walkers cloned through the same memo, and behaving like the
originals) produces identical traces of matched flags and error lists,
and identical `end()` / `endAttributes()` results afterwards. -/
theorem interleave_clone_preserves_behavior {A B : Type}
    (opsA : WalkerOps A) (opsB : WalkerOps B) (clA : A → A) (clB : B → B)
    (hFA : CloneFireCommutes opsA clA) (hFB : CloneFireCommutes opsB clB)
    (hCA : CloneKeepsCanEnd opsA clA) (hCB : CloneKeepsCanEnd opsB clB)
    (hAA : CloneKeepsCanEndAttribute opsA clA)
    (hAB : CloneKeepsCanEndAttribute opsB clB)
    (hEA : CloneKeepsEndResult opsA clA) (hEB : CloneKeepsEndResult opsB clB)
    (hXA : CloneKeepsEndAttributesResult opsA clA)
    (hXB : CloneKeepsEndAttributesResult opsB clB)
    (w : InterleaveWalker A B) (events : List Event) :
    (interleaveRun opsA opsB (interleaveClone clA clB w) events).2
        = (interleaveRun opsA opsB w events).2 ∧
    (interleaveEnd opsA opsB
        (interleaveRun opsA opsB (interleaveClone clA clB w) events).1).2
      = (interleaveEnd opsA opsB (interleaveRun opsA opsB w events).1).2 ∧
    (interleaveEndAttributes opsA opsB
        (interleaveRun opsA opsB (interleaveClone clA clB w) events).1).2
      = (interleaveEndAttributes opsA opsB (interleaveRun opsA opsB w events).1).2 := by
  have hr := interleave_clone_run opsA opsB clA clB hFA hFB hCA hCB hAA hAB
    events w
  simp only [CloneKeepsCanEnd, CloneKeepsCanEndAttribute, CloneKeepsEndResult,
    CloneKeepsEndAttributesResult] at hCA hCB hAA hAB hEA hEB hXA hXB
  refine ⟨by rw [hr], ?_, ?_⟩
  · rw [hr]
    set v := (interleaveRun opsA opsB w events).1
    by_cases c1 : v.ended = true
    · simp [interleaveEnd, interleaveClone, c1]
    · by_cases c2 : v.canEnd = true
      · simp [interleaveEnd, interleaveClone, c1, c2]
      · rcases hx : (opsA.endWalker v.walkerA).2 with _ | la <;>
          rcases hy : (opsB.endWalker v.walkerB).2 with _ | lb <;>
          simp [interleaveEnd, interleaveClone, c1, c2, hEA, hEB, hx, hy]
  · rw [hr]
    set v := (interleaveRun opsA opsB w events).1
    by_cases c1 : (v.ended || v.canEndAttribute) = true
    · simp [interleaveEndAttributes, interleaveClone, c1]
    · rcases hx : (opsA.endAttributes v.walkerA).2 with _ | la <;>
        rcases hy : (opsB.endAttributes v.walkerB).2 with _ | lb <;>
        simp [interleaveEndAttributes, interleaveClone, c1, hXA, hXB, hx, hy]

/-- Witness for the C4 theorem: trivial sub-walkers whose clone is the
identity, one event. -/
theorem interleave_clone_preserves_behavior_witness :
    (interleaveRun unitOps unitOps
        (interleaveClone id id (newInterleaveWalker unitOps unitOps false () ()))
        [{ name := .text, params := [] }]).2
      = (interleaveRun unitOps unitOps
          (newInterleaveWalker unitOps unitOps false () ())
          [{ name := .text, params := [] }]).2 :=
  (interleave_clone_preserves_behavior unitOps unitOps id id
    (fun _s _n _p => rfl) (fun _s _n _p => rfl) (fun _s => rfl) (fun _s => rfl)
    (fun _s => rfl) (fun _s => rfl) (fun _s => rfl) (fun _s => rfl)
    (fun _s => rfl) (fun _s => rfl)
    (newInterleaveWalker unitOps unitOps false () ())
    [{ name := .text, params := [] }]).1

/-- Swapping the two branches of an interleave walker. -/
def mirrorIW {A B : Type} (w : InterleaveWalker A B) : InterleaveWalker B A :=
  { ended := w.ended
    hasAttrs := w.hasAttrs
    walkerA := w.walkerB
    walkerB := w.walkerA
    canEndAttribute := w.canEndAttribute
    canEnd := w.canEnd }

/-- The Relax NG restriction on interleave along a run: no event
delivered to the walker is matched by both branches at once.  The pair
of sub-walker states is evolved exactly as `fireEvent` evolves the
fields `walkerA` / `walkerB`. -/
def dualFree {A B : Type} (opsA : WalkerOps A) (opsB : WalkerOps B)
    (hasAttrs : Bool) : A → B → List Event → Bool
  | _, _, [] => true
  | sa, sb, e :: rest =>
    if isAttributeEvent e.name && !hasAttrs then
      dualFree opsA opsB hasAttrs sa sb rest
    else
      let fa := opsA.fireEvent sa e.name e.params
      let fb := opsB.fireEvent sb e.name e.params
      !(fa.2.matched && fb.2.matched) &&
        dualFree opsA opsB hasAttrs fa.1 (if fa.2.matched then sb else fb.1) rest

/-- One `fireEvent` step commutes with branch swapping, as long as the
event is not matched by both branches at once. -/
theorem interleave_mirror_fire {A B : Type}
    (opsA : WalkerOps A) (opsB : WalkerOps B)
    (hA : UnmatchedPreserves opsA) (hB : UnmatchedPreserves opsB)
    (w : InterleaveWalker A B) (n : EventName) (p : List String)
    (hd : (isAttributeEvent n && !w.hasAttrs) = false → w.ended = false →
      ¬((opsA.fireEvent w.walkerA n p).2.matched = true ∧
        (opsB.fireEvent w.walkerB n p).2.matched = true)) :
    interleaveFireEvent opsB opsA (mirrorIW w) n p
      = (mirrorIW (interleaveFireEvent opsA opsB w n p).1,
         (interleaveFireEvent opsA opsB w n p).2) := by
  by_cases c1 : (isAttributeEvent n && !w.hasAttrs) = true
  · simp [interleaveFireEvent, mirrorIW, c1]
  · by_cases c2 : w.ended = true
    · simp [interleaveFireEvent, mirrorIW, c1, c2]
    · have c1' : (isAttributeEvent n && !w.hasAttrs) = false := by simpa using c1
      have c2' : w.ended = false := by
        cases hq : w.ended with
        | false => rfl
        | true => exact absurd hq c2
      by_cases c3 : (opsA.fireEvent w.walkerA n p).2.matched = true
      · have c4 : (opsB.fireEvent w.walkerB n p).2.matched = false := by
          cases hq : (opsB.fireEvent w.walkerB n p).2.matched with
          | false => rfl
          | true => exact absurd ⟨c3, hq⟩ (hd c1' c2')
        have hwb : (opsB.fireEvent w.walkerB n p).1 = w.walkerB :=
          hB w.walkerB n p c4
        simp [interleaveFireEvent, mirrorIW, c1, c2, c3, c4, hwb, Bool.and_comm]
      · have hwa : (opsA.fireEvent w.walkerA n p).1 = w.walkerA :=
          hA w.walkerA n p (by simpa using c3)
        by_cases c4 : (opsB.fireEvent w.walkerB n p).2.matched = true
        · simp [interleaveFireEvent, mirrorIW, c1, c2, c3, c4, hwa, Bool.and_comm]
        · have hwb : (opsB.fireEvent w.walkerB n p).1 = w.walkerB :=
            hB w.walkerB n p (by simpa using c4)
          simp [interleaveFireEvent, mirrorIW, c1, c2, c3, c4, hwa, hwb]

/-- A whole dual-free run commutes with branch swapping. -/
theorem interleave_mirror_run {A B : Type}
    (opsA : WalkerOps A) (opsB : WalkerOps B)
    (hA : UnmatchedPreserves opsA) (hB : UnmatchedPreserves opsB)
    (events : List Event) (w : InterleaveWalker A B)
    (h0 : w.ended = false)
    (hdf : dualFree opsA opsB w.hasAttrs w.walkerA w.walkerB events = true) :
    interleaveRun opsB opsA (mirrorIW w) events
      = (mirrorIW (interleaveRun opsA opsB w events).1,
         (interleaveRun opsA opsB w events).2) := by
  induction events generalizing w with
  | nil => simp [interleaveRun, mirrorIW]
  | cons e rest ih =>
    have hconst := interleave_fire_const opsA opsB w e.name e.params
    by_cases hc : (isAttributeEvent e.name && !w.hasAttrs) = true
    · have hfw : interleaveFireEvent opsA opsB w e.name e.params
          = (w, noMatchResult) := by
        simp [interleaveFireEvent, hc]
      have hfm : interleaveFireEvent opsB opsA (mirrorIW w) e.name e.params
          = (mirrorIW w, noMatchResult) := by
        simp [interleaveFireEvent, mirrorIW, hc]
      have hdf' : dualFree opsA opsB w.hasAttrs w.walkerA w.walkerB rest = true := by
        simpa [dualFree, hc] using hdf
      have := ih w h0 hdf'
      simp [interleaveRun, hfw, hfm, this]
    · have hc' : (isAttributeEvent e.name && !w.hasAttrs) = false := by
        simpa using hc
      simp only [dualFree, hc', Bool.false_eq_true, if_false, Bool.and_eq_true,
        Bool.not_eq_true', Bool.and_eq_false_iff] at hdf
      have hd : ¬((opsA.fireEvent w.walkerA e.name e.params).2.matched = true ∧
          (opsB.fireEvent w.walkerB e.name e.params).2.matched = true) := by
        intro hcontra
        rcases hdf.1 with h | h
        · rw [hcontra.1] at h
          simp at h
        · rw [hcontra.2] at h
          simp at h
      have hs := interleave_mirror_fire opsA opsB hA hB w e.name e.params
        (fun _ _ => hd)
      have hnext : dualFree opsA opsB
          (interleaveFireEvent opsA opsB w e.name e.params).1.hasAttrs
          (interleaveFireEvent opsA opsB w e.name e.params).1.walkerA
          (interleaveFireEvent opsA opsB w e.name e.params).1.walkerB rest = true := by
        rw [hconst.2]
        by_cases c3 : (opsA.fireEvent w.walkerA e.name e.params).2.matched = true
        · have c4 : (opsB.fireEvent w.walkerB e.name e.params).2.matched = false := by
            cases hq : (opsB.fireEvent w.walkerB e.name e.params).2.matched with
            | false => rfl
            | true => exact absurd ⟨c3, hq⟩ hd
          have h2 := hdf.2
          rw [c3] at h2
          simp only [if_true] at h2
          simpa [interleaveFireEvent, hc', h0, c3, c4] using h2
        · have c3' : (opsA.fireEvent w.walkerA e.name e.params).2.matched = false := by
            simpa using c3
          have h2 := hdf.2
          rw [c3'] at h2
          simp only [Bool.false_eq_true, if_false] at h2
          by_cases c4 : (opsB.fireEvent w.walkerB e.name e.params).2.matched = true <;>
            simpa [interleaveFireEvent, hc', h0, c3', c4] using h2
      have := ih (interleaveFireEvent opsA opsB w e.name e.params).1
        (by rw [hconst.1, h0]) hnext
      simp [interleaveRun, hs, this]

/-- Branch-swapped walkers agree on whether `end()` returns `false`. -/
theorem interleave_mirror_end_isNone {A B : Type}
    (opsA : WalkerOps A) (opsB : WalkerOps B) (v : InterleaveWalker A B) :
    (interleaveEnd opsB opsA (mirrorIW v)).2.isNone
      = (interleaveEnd opsA opsB v).2.isNone := by
  by_cases c1 : v.ended = true
  · simp [interleaveEnd, mirrorIW, c1]
  · by_cases c2 : v.canEnd = true
    · simp [interleaveEnd, mirrorIW, c1, c2]
    · rcases hx : (opsA.endWalker v.walkerA).2 with _ | la <;>
        rcases hy : (opsB.endWalker v.walkerB).2 with _ | lb <;>
        simp [interleaveEnd, mirrorIW, c1, c2, hx, hy]

/-- C2, amended.  `Interleave(a,b)` and `Interleave(b,a)` accept the
same event sequences, provided the run is dual-free — no event matched
by both branches at once, which is what the Relax NG restriction on
interleave guarantees — and the sub-walkers honour the contract that an
unmatched event leaves them unchanged.  Without the dual-freedom
hypothesis the equality fails (`interleave_comm_counterexample`). -/
theorem interleave_comm_of_no_dual_match {A B : Type}
    (opsA : WalkerOps A) (opsB : WalkerOps B)
    (hA : UnmatchedPreserves opsA) (hB : UnmatchedPreserves opsB)
    (hasAttrs : Bool) (wa : A) (wb : B) (events : List Event)
    (hdf : dualFree opsA opsB hasAttrs wa wb events = true) :
    interleaveAccepts opsB opsA
        (newInterleaveWalker opsB opsA hasAttrs wb wa) events
      = interleaveAccepts opsA opsB
        (newInterleaveWalker opsA opsB hasAttrs wa wb) events := by
  have hmn : mirrorIW (newInterleaveWalker opsA opsB hasAttrs wa wb)
      = newInterleaveWalker opsB opsA hasAttrs wb wa := by
    simp [mirrorIW, newInterleaveWalker, Bool.and_comm]
  have hr := interleave_mirror_run opsA opsB hA hB events
    (newInterleaveWalker opsA opsB hasAttrs wa wb) rfl hdf
  rw [hmn] at hr
  simp only [interleaveAccepts, hr]
  rw [interleave_mirror_end_isNone]

/-- Witness for the amended C2 theorem: trivial sub-walkers, one
event, trivially dual-free. -/
theorem interleave_comm_of_no_dual_match_witness :
    interleaveAccepts unitOps unitOps
        (newInterleaveWalker unitOps unitOps false () ())
        [{ name := .text, params := [] }]
      = interleaveAccepts unitOps unitOps
        (newInterleaveWalker unitOps unitOps false () ())
        [{ name := .text, params := [] }] :=
  interleave_comm_of_no_dual_match unitOps unitOps
    (fun _s _n _p _h => rfl) (fun _s _n _p _h => rfl) false () ()
    [{ name := .text, params := [] }] (by decide)

/-- C6.  `hasEmptyPattern(Interleave(a,b))` is
`hasEmptyPattern(a) && hasEmptyPattern(b)`, which is the standard Relax
NG nullability of an interleave. -/
theorem interleave_hasEmptyPattern_nullability (a b : Pattern) :
    Pattern.hasEmptyPattern (.interleave a b)
        = (a.hasEmptyPattern && b.hasEmptyPattern) ∧
    rngNullable (.interleave a b) = (rngNullable a && rngNullable b) ∧
    Pattern.hasEmptyPattern (.interleave a b) = rngNullable (.interleave a b) :=
  ⟨rfl, rfl, hasEmpty_eq_rngNullable _⟩

/-!
Regexp translator fragment.  The translator source
(`lib/salve/datatypes/regexp`) is not among the provided sources — only
its test file is — so this fragment is modelled from the spec (section
4.3): an XSD expression made of plain characters and character classes
with subtraction is translated to an anchored ECMA regexp where
`[A-[B]]` becomes a negative lookahead `(?!B)` followed by the positive
class, wrapped in a non-capturing group.
-/

/-- Modelled from the spec: a character class of an XSD regexp — a
plain list of member characters, possibly with a subtracted class. -/
inductive XsdClass where
  | leaf (members : List Char)
  | subtracted (members : List Char) (sub : XsdClass)
deriving DecidableEq, Repr

/-- Modelled from the spec: an atom of the XSD regexp fragment — a
plain character or a character class. -/
inductive XsdAtom where
  | ch (c : Char)
  | cls (k : XsdClass)
deriving DecidableEq, Repr

/-- Modelled from the spec: scanning of one character class after its
opening bracket.  Inside a class, `]` closes it, and `-[` opens a
subtracted class which must be followed by the closing bracket of the
outer class. -/
def scanCls : Nat → List Char → List Char → Option (XsdClass × List Char)
  | 0, _, _ => none
  | Nat.succ f, cs, acc =>
    match cs with
    | [] => none
    | ']' :: rest => some (.leaf acc.reverse, rest)
    | '-' :: '[' :: rest =>
      match scanCls f rest [] with
      | some (sub, ']' :: rest2) => some (.subtracted acc.reverse sub, rest2)
      | _ => none
    | c :: rest => scanCls f rest (c :: acc)

/-- Modelled from the spec: scanning of a sequence of atoms. -/
def scanAtoms : Nat → List Char → Option (List XsdAtom)
  | 0, _ => none
  | Nat.succ _, [] => some []
  | Nat.succ f, '[' :: rest =>
    match scanCls (rest.length + 1) rest [] with
    | some (k, rest2) =>
      match scanAtoms f rest2 with
      | some atoms => some (.cls k :: atoms)
      | none => none
    | none => none
  | Nat.succ f, c :: rest =>
    match scanAtoms f rest with
    | some atoms => some (.ch c :: atoms)
    | none => none

/-- Reading a whole XSD expression of the fragment. -/
def xsdRead (s : String) : Option (List XsdAtom) :=
  scanAtoms (s.length + 1) s.toList

/-- Modelled from the spec's translation table: a plain class prints as
`[...]`; a class with a subtraction prints as the non-capturing group
of a negative lookahead on the subtracted class followed by the
positive class. -/
def renderClass : XsdClass → String
  | .leaf ms => "[" ++ String.mk ms ++ "]"
  | .subtracted ms sub =>
    "(?:(?!" ++ renderClass sub ++ ")[" ++ String.mk ms ++ "])"

/-- Printing one atom. -/
def renderAtom : XsdAtom → String
  | .ch c => String.mk [c]
  | .cls k => renderClass k

/-- The translated, anchored regexp string of an XSD expression of the
fragment (spec: the whole expression is anchored `^…$`). -/
def xsdToRegexpString (s : String) : Option String :=
  (xsdRead s).map
    (fun atoms => "^" ++ String.join (atoms.map renderAtom) ++ "$")

/-- Semantics of a class: membership in the positive part and not
matched by the subtracted class. -/
def classMatches : XsdClass → Char → Bool
  | .leaf ms, c => ms.contains c
  | .subtracted ms sub, c => ms.contains c && !(classMatches sub c)

/-- Semantics of one atom against one character. -/
def atomMatches : XsdAtom → Char → Bool
  | .ch a, c => a == c
  | .cls k, c => classMatches k c

/-- Anchored matching of an atom sequence against a character list. -/
def atomsMatch : List XsdAtom → List Char → Bool
  | [], [] => true
  | a :: atoms, c :: cs => atomMatches a c && atomsMatch atoms cs
  | _, _ => false

/-- The compiled matcher of an XSD expression of the fragment, applied
to a text. -/
def xsdMatcherAccepts (re text : String) : Bool :=
  match xsdRead re with
  | some atoms => atomsMatch atoms text.toList
  | none => false

/-- C7.  The translator maps `ab[abcd-[bc]]cd` to the anchored string
`^ab(?:(?![bc])[abcd])cd$` — the subtraction becoming a negative
lookahead followed by the positive class — and the resulting matcher
matches `abdcd` and matches neither `abbcd` nor `ab1cd`. -/
theorem regexp_subtraction_translation :
    xsdToRegexpString "ab[abcd-[bc]]cd" = some "^ab(?:(?![bc])[abcd])cd$" ∧
    xsdMatcherAccepts "ab[abcd-[bc]]cd" "abdcd" = true ∧
    xsdMatcherAccepts "ab[abcd-[bc]]cd" "abbcd" = false ∧
    xsdMatcherAccepts "ab[abcd-[bc]]cd" "ab1cd" = false := by
  decide

/-!
The salve-convert CLI checks on the format version.
-/

/-- Translation of the CLI's format-version check (salve-convert lines
402-404): any requested version below 3 raises a `Fatal` error. -/
def formatVersionFatal (n : Int) : Option String :=
  if n < 3 then some ("cant produce format version " ++ toString n) else none

/-- Translation of the CLI's `uncaughtException` handler (salve-convert
lines 259-269): a `Fatal` error prints its message and the process
exits with code 1. -/
def fatalExitCode : Nat := 1

/-- Exit code of salve-convert when the format-version check fails:
the `Fatal` raised by the check reaches the handler. -/
def cliFormatVersionExit (n : Int) : Option Nat :=
  (formatVersionFatal n).map (fun _ => fatalExitCode)

/-- Translation of the version check in the `DefaultConversionWalker`
constructor (conversion walker source lines 34-41): any version other
than 3 throws; otherwise the walker is created with the given
`includePaths` and `verbose` configuration. -/
def mkDefaultConversionWalker (version : Int) (includePaths verbose : Bool) :
    Except String (Bool × Bool) :=
  if version ≠ 3 then .error "DefaultConversionWalker only supports version 3"
  else .ok (includePaths, verbose)

/-!
The `DefaultConversionWalker` of the conversion module, translated from
the provided conversion walker source.  The walker state is the output
string, the construct stack and the `inNameClass` flag; the
`includePaths` / `verbose` configuration is passed as parameters.  TS
exceptions become `Except String`; recursion is driven by fuel so that
the function stays structurally recursive.
-/

/-- One entry of the construct stack (`ConstructState`): opening
string, expected closing string, and whether the next item is the
first. -/
structure CState where
  openStr : String
  closeStr : String
  first : Bool
deriving DecidableEq, Repr

/-- Mutable state of `DefaultConversionWalker`. -/
structure DCW where
  output : String
  constructState : List CState
  inNameClass : Bool
deriving DecidableEq, Repr

/-- The freshly constructed walker state (conversion walker source
lines 22-23, 48-49). -/
def initDCW : DCW :=
  { output := ""
    constructState := [{ openStr := "", closeStr := "", first := true }]
    inNameClass := false }

/-- `arrayStart` (line 40): the quoted name in verbose mode, the number
0 otherwise (rendered as it is output). -/
def arrayStart (verbose : Bool) : String :=
  if verbose then "\"Array\"" else "0"

/-- `openConstruct` (lines 68-71). -/
def openConstruct (st : DCW) (o c : String) : DCW :=
  { st with
      constructState := { openStr := o, closeStr := c, first := true }
        :: st.constructState
      output := st.output ++ o }

/-- `closeConstruct` (lines 82-90): popping an empty stack silently
does nothing; a mismatched closing string throws. -/
def closeConstruct (st : DCW) (c : String) : Except String DCW :=
  match st.constructState with
  | [] => .ok st
  | top :: rest =>
    if c ≠ top.closeStr then
      .error ("construct mismatch: " ++ top.closeStr ++ " vs " ++ c)
    else .ok { st with constructState := rest, output := st.output ++ c }

/-- `newItem` (lines 96-104): outputs a separator unless this is the
first item of the current construct.  On an empty stack the TS code
would fault; here nothing happens. -/
def newItem (st : DCW) : DCW :=
  match st.constructState with
  | [] => st
  | top :: rest =>
    if top.first then
      { st with constructState := { top with first := false } :: rest }
    else { st with output := st.output ++ "," }

/-- `outputItem` (lines 112-115), with the item already rendered. -/
def outputItemS (st : DCW) (item : String) : DCW :=
  let st := newItem st
  { st with output := st.output ++ item }

/-- The double-quote and backslash escaping of `outputAsString`. -/
def escapeStr (s : String) : String :=
  String.join (s.toList.map
    (fun c => if c == '"' || c == '\\' then String.mk ['\\', c] else String.mk [c]))

/-- `outputAsString` (lines 125-130). -/
def outputAsString (st : DCW) (s : String) : DCW :=
  let st := newItem st
  { st with output := st.output ++ "\"" ++ escapeStr s ++ "\"" }

/-- `openArray` (lines 135-138). -/
def openArray (verbose : Bool) (st : DCW) : DCW :=
  outputItemS (openConstruct st "[" "]") (arrayStart verbose)

/-- A node of the parsed element tree walked by the conversion walker:
an element with local name, attributes, path and children, or a text
node. -/
inductive CNode where
  | elem (ename : String) (attrs : List (String × String)) (path : String)
      (children : List CNode)
  | textN (text : String)

mutual
/-- The `text` of a node: its own text for a text node, the
concatenated text of the children for an element. -/
def ctext : CNode → String
  | .textN t => t
  | .elem _ _ _ children => ctextList children

/-- Concatenated text of a node list. -/
def ctextList : List CNode → String
  | [] => ""
  | c :: cs => ctext c ++ ctextList cs
end

/-- `mustGetAttribute`: throws when the attribute is absent. -/
def mustGetAttr (attrs : List (String × String)) (name : String) :
    Except String String :=
  match attrs.lookup name with
  | some v => .ok v
  | none => .error ("attribute missing: " ++ name)

/-- Modelled from the spec: bit 0 of the option word is
`OPTION_NO_PATHS`, set when path strings are omitted (`common`, not
among the provided sources). -/
def OPTION_NO_PATHS : Nat := 1

/-- Modelled from the spec: the `nameToCode` table of the conversion
module maps each known constructor name to its numeric code; `Array`
is 0 (the non-verbose `arrayStart`), the remaining names are numbered
in the order the spec lists them. -/
def nameToCode (s : String) : Option Nat :=
  [("Array", 0), ("Grammar", 1), ("Define", 2), ("Ref", 3), ("Element", 4),
   ("Attribute", 5), ("Name", 6), ("NameChoice", 7), ("NsName", 8),
   ("AnyName", 9), ("Choice", 10), ("Group", 11), ("Interleave", 12),
   ("OneOrMore", 13), ("Value", 14), ("Data", 15), ("List", 16),
   ("Text", 17), ("Empty", 18), ("NotAllowed", 19)].lookup s

/-- The capitalisation of the default case (lines 180-181). -/
def capitalize (s : String) : String :=
  match s.toList with
  | [] => ""
  | c :: rest => String.mk (c.toUpper :: rest)

/-- Output of a `ref` / `define` name (lines 221-230): an all-digit
name is output as the number it parses to, any other name as a
string. -/
def outputRefName (st : DCW) (nm : String) : DCW :=
  match nm.toNat? with
  | some k => outputItemS st (toString k)
  | none => outputAsString st nm

/-- The tail of the `data` case (lines 272-316) after the `type` and
`datatypeLibrary` attributes are fetched and the `hasParams` /
`hasExcept` flags computed. -/
def dataTail (recur : CNode → DCW → Except String DCW) (vb : Bool)
    (children : List CNode) (hasParams hasExcept : Bool)
    (typeAttr dlAttr : String) (st : DCW) : Except String DCW :=
  if typeAttr != "token" || dlAttr != "" || hasParams || hasExcept then
    let st := outputAsString st typeAttr
    if dlAttr != "" || hasParams || hasExcept then
      let st := outputAsString st dlAttr
      if hasParams || hasExcept then
        let st := newItem st
        let st := openArray vb st
        match (if hasParams then
            (if hasExcept then children.take (children.length - 1)
             else children).foldlM (fun st c => recur c st) st
          else .ok st) with
        | .error e => .error e
        | .ok st1 =>
          match closeConstruct st1 "]" with
          | .error e => .error e
          | .ok st2 =>
            if hasExcept then
              match children.getLast? with
              | some c => recur c st2
              | none => .ok st2
            else .ok st2
      else .ok st
    else .ok st
  else .ok st

/-- The inner switch of the default case of `walk` (lines 220-351),
with the recursive walk abstracted as `recur`. -/
def walkInnerE (recur : CNode → DCW → Except String DCW) (vb : Bool)
    (ename : String) (attrs : List (String × String)) (children : List CNode)
    (st : DCW) : Except String DCW :=
  if ename == "ref" then do
    let nm ← mustGetAttr attrs "name"
    .ok (outputRefName st nm)
  else if ename == "define" then do
    let nm ← mustGetAttr attrs "name"
    let st := outputRefName st nm
    let st := newItem st
    let st := openArray vb st
    let st ← children.foldlM (fun st c => recur c st) st
    closeConstruct st "]"
  else if ename == "value" then do
    let st := outputAsString st (ctextList children)
    let typeAttr ← mustGetAttr attrs "type"
    let dlAttr ← mustGetAttr attrs "datatypeLibrary"
    let nsAttr ← mustGetAttr attrs "ns"
    if typeAttr != "token" || dlAttr != "" || nsAttr != "" then
      let st := outputAsString st typeAttr
      if dlAttr != "" || nsAttr != "" then
        let st := outputAsString st dlAttr
        if nsAttr != "" then .ok (outputAsString st nsAttr) else .ok st
      else .ok st
    else .ok st
  else if ename == "data" then
    let hasParams :=
      match children with
      | .elem l _ _ _ :: _ => l == "param"
      | _ => false
    let hasExcept :=
      match children.getLast? with
      | some (.elem l _ _ _) => l == "except"
      | _ => false
    match mustGetAttr attrs "type" with
    | .error e => .error e
    | .ok typeAttr =>
      match mustGetAttr attrs "datatypeLibrary" with
      | .error e => .error e
      | .ok dlAttr =>
        dataTail recur vb children hasParams hasExcept typeAttr dlAttr st
  else if ename == "group" || ename == "interleave" || ename == "choice"
      || ename == "oneOrMore" then do
    let st := newItem st
    let st := openArray vb st
    let st ← children.foldlM (fun st c => recur c st) st
    closeConstruct st "]"
  else if ename == "element" || ename == "attribute" then
    match children with
    | [] => .error "element or attribute without a name class"
    | c0 :: crest => do
      let st := { st with inNameClass := true }
      let st ← recur c0 st
      let st := { st with inNameClass := false }
      let st := newItem st
      let st := openArray vb st
      let st ← crest.foldlM (fun st c => recur c st) st
      closeConstruct st "]"
  else if ename == "name" then do
    let nsv ← mustGetAttr attrs "ns"
    let st := outputAsString st nsv
    .ok (outputAsString st (ctextList children))
  else if ename == "nsName" then do
    let nsv ← mustGetAttr attrs "ns"
    let st := outputAsString st nsv
    children.foldlM (fun st c => recur c st) st
  else
    children.foldlM (fun st c => recur c st) st

/-- The `walk` method of `DefaultConversionWalker` (lines 141-355),
with fuel making the recursion structural.  Text nodes are skipped, as
`walkChildren` only walks elements. -/
def walkE (ip vb : Bool) : Nat → CNode → DCW → Except String DCW
  | 0, _, _ => .error "fuel exhausted"
  | Nat.succ _, .textN _, st => .ok st
  | Nat.succ f, .elem ename attrs path children, st =>
    if ename == "start" then
      children.foldlM (fun st c => walkE ip vb f c st) st
    else if ename == "param" then do
      let nm ← mustGetAttr attrs "name"
      let st := outputAsString st nm
      match children with
      | [] => .error "param without a child"
      | c :: _ => .ok (outputAsString st (ctext c))
    else if ename == "grammar" then
      let st := openConstruct st "\x7b" "\x7d"
      let st := outputItemS st
        ("\"v\":3,\"o\":" ++ (if ip then "0" else toString OPTION_NO_PATHS)
          ++ ",\"d\":")
      match nameToCode "Grammar" with
      | none => .error "cant find constructor for Grammar"
      | some ctor => do
        let st := openConstruct st "[" "]"
        let st := if vb then outputAsString st "Grammar"
                  else outputItemS st (toString ctor)
        let st := if ip then outputAsString st path else st
        match children with
        | [] => .error "grammar without children"
        | c0 :: crest => do
          let st ← walkE ip vb f c0 st
          let st := newItem st
          let st := openArray vb st
          let st ← crest.foldlM (fun st c => walkE ip vb f c st) st
          let st ← closeConstruct st "]"
          let st ← closeConstruct st "]"
          closeConstruct st "\x7d"
    else
      let capitalized0 := capitalize ename
      if capitalized0 == "Except" then
        children.foldlM (fun st c => walkE ip vb f c st) st
      else
        let capitalized :=
          if st.inNameClass && capitalized0 == "Choice" then "NameChoice"
          else capitalized0
        let st := newItem st
        match nameToCode capitalized with
        | none => .error ("cant find constructor for " ++ capitalized)
        | some ctor => do
          let st := openConstruct st "[" "]"
          let st := if vb then outputAsString st capitalized
                    else outputItemS st (toString ctor)
          let st := if ip then outputAsString st path else st
          let st ← walkInnerE (fun c st => walkE ip vb f c st) vb
            ename attrs children st
          closeConstruct st "]"

/-- One walker state extends another when its output only appends to
the other's: every operation of the conversion walker only appends. -/
def OutExt (st st' : DCW) : Prop := ∃ t, st'.output = st.output ++ t

theorem outExt_refl (st : DCW) : OutExt st st := ⟨"", by simp⟩

theorem outExt_trans {a b c : DCW} (h1 : OutExt a b) (h2 : OutExt b c) :
    OutExt a c := by
  obtain ⟨t1, e1⟩ := h1
  obtain ⟨t2, e2⟩ := h2
  exact ⟨t1 ++ t2, by rw [e2, e1, String.append_assoc]⟩

theorem outExt_openConstruct (st : DCW) (o c : String) :
    OutExt st (openConstruct st o c) := ⟨o, rfl⟩

theorem outExt_newItem (st : DCW) : OutExt st (newItem st) := by
  unfold newItem
  rcases hm : st.constructState with _ | ⟨top, rest⟩
  · exact ⟨"", by simp⟩
  · cases hq : top.first
    · exact ⟨",", by simp [hq]⟩
    · exact ⟨"", by simp [hq]⟩

theorem outExt_outputItemS (st : DCW) (i : String) :
    OutExt st (outputItemS st i) :=
  outExt_trans (outExt_newItem st) ⟨i, rfl⟩

theorem outExt_outputAsString (st : DCW) (s : String) :
    OutExt st (outputAsString st s) :=
  outExt_trans (outExt_newItem st)
    ⟨"\"" ++ escapeStr s ++ "\"", by simp [outputAsString, String.append_assoc]⟩

theorem outExt_openArray (vb : Bool) (st : DCW) :
    OutExt st (openArray vb st) :=
  outExt_trans (outExt_openConstruct st "[" "]")
    (outExt_outputItemS _ (arrayStart vb))

theorem outExt_outputRefName (st : DCW) (nm : String) :
    OutExt st (outputRefName st nm) := by
  unfold outputRefName
  match nm.toNat? with
  | some k => exact outExt_outputItemS st (toString k)
  | none => exact outExt_outputAsString st nm

theorem outExt_ite2 {c : Bool} {st a b : DCW} (ha : OutExt st a)
    (hb : OutExt st b) : OutExt st (if c then a else b) := by
  by_cases h : c = true <;> simp [h] <;> assumption

theorem outExt_closeConstruct {st st' : DCW} {c : String}
    (h : closeConstruct st c = .ok st') : OutExt st st' := by
  unfold closeConstruct at h
  match hm : st.constructState with
  | [] =>
    rw [hm] at h
    simp only [Except.ok.injEq] at h
    rw [← h]
    exact outExt_refl st
  | top :: rest =>
    rw [hm] at h
    by_cases hc : c = top.closeStr
    · simp only [hc, ne_eq, not_true_eq_false, if_false, Except.ok.injEq] at h
      rw [← h]
      exact ⟨top.closeStr, rfl⟩
    · simp [hc] at h

theorem outExt_inNameClassTrue (st : DCW) :
    OutExt st { st with inNameClass := true } := ⟨"", by simp⟩

theorem outExt_inNameClassFalse (st : DCW) :
    OutExt st { st with inNameClass := false } := ⟨"", by simp⟩

/-- Destructuring a successful `Except` bind. -/
theorem bind_ok {α β : Type} {m : Except String α} {k : α → Except String β}
    {b : β} (h : m.bind k = .ok b) : ∃ a, m = .ok a ∧ k a = .ok b := by
  match hm : m with
  | .error e => simp [Except.bind] at h
  | .ok a => exact ⟨a, rfl, by simpa [Except.bind] using h⟩

theorem outExt_foldlM {recur : CNode → DCW → Except String DCW}
    (H : ∀ c st st', recur c st = .ok st' → OutExt st st') :
    ∀ (l : List CNode) (st st' : DCW),
      l.foldlM (fun st c => recur c st) st = .ok st' → OutExt st st' := by
  intro l
  induction l with
  | nil =>
    intro st st' h
    simp only [List.foldlM, pure, Except.pure, Except.ok.injEq] at h
    rw [← h]
    exact outExt_refl st
  | cons c cs ih =>
    intro st st' h
    simp only [List.foldlM] at h
    obtain ⟨st1, h1, h2⟩ := bind_ok h
    exact outExt_trans (H c st st1 h1) (ih st1 st' h2)

/-- `dataTail` only appends to the output. -/
theorem dataTail_outExt {recur : CNode → DCW → Except String DCW}
    (vb : Bool) (children : List CNode) (hasParams hasExcept : Bool)
    (typeAttr dlAttr : String)
    (H : ∀ c st st', recur c st = .ok st' → OutExt st st') :
    ∀ st st', dataTail recur vb children hasParams hasExcept typeAttr dlAttr st
      = .ok st' → OutExt st st' := by
  intro st st' h
  unfold dataTail at h
  have base : OutExt st
      (openArray vb (newItem
        (outputAsString (outputAsString st typeAttr) dlAttr))) := by
    refine outExt_trans (outExt_trans
      (outExt_outputAsString st typeAttr)
      (outExt_outputAsString _ dlAttr)) ?_
    exact outExt_trans (outExt_newItem _) (outExt_openArray vb _)
  cases hasParams with
  | true =>
    cases hasExcept with
    | true =>
      simp only [Bool.or_true, Bool.or_false, Bool.false_eq_true, if_false, reduceIte] at h
      split at h
      · simp at h
      · rename_i st1 hst1
        split at h
        · simp at h
        · rename_i st2 hst2
          refine outExt_trans base ?_
          refine outExt_trans (outExt_foldlM H _ _ _ hst1) ?_
          refine outExt_trans (outExt_closeConstruct hst2) ?_
          split at h
          · rename_i c hlast
            exact H c st2 st' h
          · simp only [Except.ok.injEq] at h
            rw [← h]
            exact outExt_refl _
    | false =>
      simp only [Bool.or_true, Bool.or_false, Bool.false_eq_true, if_false, reduceIte] at h
      split at h
      · simp at h
      · rename_i st1 hst1
        split at h
        · simp at h
        · rename_i st2 hst2
          simp only [Except.ok.injEq] at h
          rw [← h]
          refine outExt_trans base ?_
          exact outExt_trans (outExt_foldlM H _ _ _ hst1)
            (outExt_closeConstruct hst2)
  | false =>
    cases hasExcept with
    | true =>
      simp only [Bool.or_true, Bool.or_false, Bool.false_eq_true, if_false, reduceIte] at h
      split at h
      · simp at h
      · rename_i st2 hst2
        refine outExt_trans base ?_
        refine outExt_trans (outExt_closeConstruct hst2) ?_
        split at h
        · rename_i c hlast
          exact H c st2 st' h
        · simp only [Except.ok.injEq] at h
          rw [← h]
          exact outExt_refl _
    | false =>
      simp only [Bool.or_true, Bool.or_false, Bool.false_eq_true, if_false, reduceIte] at h
      split at h
      · split at h
        · simp only [Except.ok.injEq] at h
          rw [← h]
          exact outExt_trans (outExt_outputAsString st typeAttr)
            (outExt_outputAsString _ dlAttr)
        · simp only [Except.ok.injEq] at h
          rw [← h]
          exact outExt_outputAsString st typeAttr
      · simp only [Except.ok.injEq] at h
        rw [← h]
        exact outExt_refl st

/-- `walkInnerE` only appends to the output when its recursive walk
does. -/
theorem walkInnerE_outExt {recur : CNode → DCW → Except String DCW}
    (vb : Bool) (ename : String) (attrs : List (String × String))
    (children : List CNode)
    (H : ∀ c st st', recur c st = .ok st' → OutExt st st') :
    ∀ st st', walkInnerE recur vb ename attrs children st = .ok st' →
      OutExt st st' := by
  intro st st' h
  unfold walkInnerE at h
  split at h
  · -- ref
    obtain ⟨nm, h1, h2⟩ := bind_ok h
    simp only [Except.ok.injEq] at h2
    rw [← h2]
    exact outExt_outputRefName st nm
  · split at h
    · -- define
      obtain ⟨nm, h1, h2⟩ := bind_ok h
      obtain ⟨st1, h3, h4⟩ := bind_ok h2
      refine outExt_trans (outExt_trans (outExt_trans (outExt_outputRefName st nm)
        (outExt_newItem _)) (outExt_openArray vb _)) ?_
      exact outExt_trans (outExt_foldlM H children _ _ h3) (outExt_closeConstruct h4)
    · split at h
      · -- value
        obtain ⟨typeAttr, h1, h2⟩ := bind_ok h
        obtain ⟨dlAttr, h3, h4⟩ := bind_ok h2
        obtain ⟨nsAttr, h5, h6⟩ := bind_ok h4
        have base : OutExt st (outputAsString st (ctextList children)) :=
          outExt_outputAsString st _
        split at h6
        · split at h6
          · split at h6 <;> simp only [Except.ok.injEq] at h6 <;> rw [← h6]
            · exact outExt_trans base (outExt_trans (outExt_outputAsString _ _)
                (outExt_trans (outExt_outputAsString _ _) (outExt_outputAsString _ _)))
            · exact outExt_trans base (outExt_trans (outExt_outputAsString _ _)
                (outExt_outputAsString _ _))
          · simp only [Except.ok.injEq] at h6
            rw [← h6]
            exact outExt_trans base (outExt_outputAsString _ _)
        · simp only [Except.ok.injEq] at h6
          rw [← h6]
          exact base
      · split at h
        · -- data
          rcases hty : mustGetAttr attrs "type" with e | typeAttr
          · rw [hty] at h
            simp at h
          · rw [hty] at h
            rcases hdl : mustGetAttr attrs "datatypeLibrary" with e2 | dlAttr
            · rw [hdl] at h
              simp at h
            · rw [hdl] at h
              dsimp only at h
              exact dataTail_outExt vb children _ _ _ _ H st st' h
        · split at h
          · -- group, interleave, choice, oneOrMore
            obtain ⟨st1, h1, h2⟩ := bind_ok h
            refine outExt_trans (outExt_trans (outExt_newItem st)
              (outExt_openArray vb _)) ?_
            exact outExt_trans (outExt_foldlM H children _ _ h1)
              (outExt_closeConstruct h2)
          · split at h
            · -- element, attribute
              match hch : children with
              | [] => simp at h
              | c0 :: crest =>
                dsimp only at h
                obtain ⟨st1, h1, h2⟩ := bind_ok h
                obtain ⟨st2, h3, h4⟩ := bind_ok h2
                refine outExt_trans (outExt_inNameClassTrue st) ?_
                refine outExt_trans (H c0 _ _ h1) ?_
                refine outExt_trans (outExt_inNameClassFalse st1) ?_
                refine outExt_trans (outExt_trans (outExt_newItem _)
                  (outExt_openArray vb _)) ?_
                exact outExt_trans (outExt_foldlM H crest _ _ h3)
                  (outExt_closeConstruct h4)
            · split at h
              · -- name
                obtain ⟨nsv, h1, h2⟩ := bind_ok h
                simp only [Except.ok.injEq] at h2
                rw [← h2]
                exact outExt_trans (outExt_outputAsString st nsv)
                  (outExt_outputAsString _ _)
              · split at h
                · -- nsName
                  obtain ⟨nsv, h1, h2⟩ := bind_ok h
                  exact outExt_trans (outExt_outputAsString st nsv)
                    (outExt_foldlM H children _ _ h2)
                · -- default
                  exact outExt_foldlM H children _ _ h

/-- `walkE` only appends to the output. -/
theorem walkE_outExt (ip vb : Bool) :
    ∀ (f : Nat) (c : CNode) (st st' : DCW),
      walkE ip vb f c st = .ok st' → OutExt st st' := by
  intro f
  induction f with
  | zero => intro c st st' h; simp [walkE] at h
  | succ f ih =>
    intro c st st' h
    match c with
    | .textN t =>
      simp only [walkE, Except.ok.injEq] at h
      rw [← h]
      exact outExt_refl st
    | .elem ename attrs path children =>
      simp only [walkE] at h
      split at h
      · exact outExt_foldlM ih children st st' h
      · split at h
        · -- param
          obtain ⟨nm, h1, h2⟩ := bind_ok h
          match hch : children with
          | [] => simp at h2
          | c0 :: crest =>
            dsimp only at h2
            simp only [Except.ok.injEq] at h2
            rw [← h2]
            exact outExt_trans (outExt_outputAsString st nm)
              (outExt_outputAsString _ _)
        · split at h
          · -- grammar
            split at h
            · simp at h
            · match hch : children with
              | [] => simp at h
              | c0 :: crest =>
                dsimp only at h
                obtain ⟨st1, h1, h2⟩ := bind_ok h
                obtain ⟨st2, h3, h4⟩ := bind_ok h2
                obtain ⟨st3, h5, h6⟩ := bind_ok h4
                obtain ⟨st4, h7, h8⟩ := bind_ok h6
                refine outExt_trans ?_ (outExt_trans (ih c0 _ _ h1)
                  (outExt_trans (outExt_newItem _)
                    (outExt_trans (outExt_openArray vb _)
                      (outExt_trans (outExt_foldlM ih crest _ _ h3)
                        (outExt_trans (outExt_closeConstruct h5)
                          (outExt_trans (outExt_closeConstruct h7)
                            (outExt_closeConstruct h8)))))))
                refine outExt_ite2 (outExt_trans ?_ (outExt_outputAsString _ _)) ?_ <;>
                  (refine outExt_trans ?_ (outExt_ite2 (outExt_outputAsString _ _)
                      (outExt_outputItemS _ _));
                   refine outExt_trans ?_ (outExt_openConstruct _ "[" "]");
                   refine outExt_trans ?_ (outExt_outputItemS _ _);
                   exact outExt_openConstruct st _ _)
          · split at h
            · -- skip to children (except)
              exact outExt_foldlM ih children st st' h
            · split at h
              · simp at h
              · obtain ⟨st1, h1, h2⟩ := bind_ok h
                refine outExt_trans ?_ (outExt_trans
                  (walkInnerE_outExt vb ename attrs children ih _ _ h1)
                  (outExt_closeConstruct h2))
                refine outExt_ite2 (outExt_trans ?_ (outExt_outputAsString _ _)) ?_ <;>
                  (refine outExt_trans ?_ (outExt_ite2 (outExt_outputAsString _ _)
                      (outExt_outputItemS _ _));
                   refine outExt_trans ?_ (outExt_openConstruct _ "[" "]");
                   exact outExt_newItem st)

/-- Option word emitted for a given `includePaths`. -/
def oValue (ip : Bool) : Nat := if ip then 0 else OPTION_NO_PATHS

/-- Separator the next `newItem` will output in the given state. -/
def sepStr (st : DCW) : String :=
  match st.constructState with
  | [] => ""
  | top :: _ => if top.first then "" else ","

/-- The constructor entry of a node array: the quoted class name in
verbose mode, the numeric code otherwise. -/
def ctorEntry (vb : Bool) (name : String) (ctor : Nat) : String :=
  if vb then "\"" ++ escapeStr name ++ "\"" else toString ctor

/-- The path string part emitted right after the constructor entry:
present exactly when `includePaths` is set. -/
def pathPart (ip : Bool) (path : String) : String :=
  if ip then "," ++ ("\"" ++ (escapeStr path ++ "\"")) else ""

/-- The effective constructor name of the default case, after the
name-class adjustment of `Choice`. -/
def effName (st : DCW) (ename : String) : String :=
  if st.inNameClass && (capitalize ename == "Choice") then "NameChoice"
  else capitalize ename

/-- The grammar case of `walk`: the serialized top level is the object
opening, the version/options/`d` keys with the option word, and the
grammar node array whose path string follows the constructor entry
exactly when `includePaths` is set. -/
theorem walkGrammarShape (ip vb : Bool)
    (f : Nat) (attrs : List (String × String)) (path : String)
    (children : List CNode) (st' : DCW)
    (h : walkE ip vb f (.elem "grammar" attrs path children) initDCW = .ok st') :
    ∃ g rest, nameToCode "Grammar" = some g ∧
      st'.output = "\x7b\"v\":3,\"o\":" ++ toString (oValue ip) ++ ",\"d\":["
        ++ ctorEntry vb "Grammar" g ++ pathPart ip path ++ rest := by
  cases f with
  | zero => simp [walkE] at h
  | succ f =>
    have e1 : (("grammar" : String) == "start") = false := rfl
    have e2 : (("grammar" : String) == "param") = false := rfl
    have e3 : (("grammar" : String) == "grammar") = true := rfl
    have e4 : nameToCode "Grammar" = some 1 := rfl
    simp only [walkE, e1, e2, e3, e4, Bool.false_eq_true, if_false,
      reduceIte] at h
    match hch : children with
    | [] => simp at h
    | c0 :: crest =>
      dsimp only at h
      obtain ⟨st1, h1, h2⟩ := bind_ok h
      obtain ⟨st2, h3, h4⟩ := bind_ok h2
      obtain ⟨st3, h5, h6⟩ := bind_ok h4
      obtain ⟨st4, h7, h8⟩ := bind_ok h6
      obtain ⟨t1, ht1⟩ := walkE_outExt ip vb f c0 _ _ h1
      obtain ⟨t15, ht15⟩ := outExt_trans (outExt_newItem st1)
        (outExt_openArray vb (newItem st1))
      obtain ⟨t2, ht2⟩ := outExt_foldlM (walkE_outExt ip vb f) crest _ _ h3
      obtain ⟨t3, ht3⟩ := outExt_closeConstruct h5
      obtain ⟨t4, ht4⟩ := outExt_closeConstruct h7
      obtain ⟨t5, ht5⟩ := outExt_closeConstruct h8
      refine ⟨1, t1 ++ t15 ++ t2 ++ t3 ++ t4 ++ t5, rfl, ?_⟩
      rw [ht5, ht4, ht3, ht2, ht15, ht1]
      have hz : toString (0 : Nat) = "0" := rfl
      have ho : toString (1 : Nat) = "1" := rfl
      cases ip <;> cases vb <;>
        (simp [initDCW, openConstruct, outputItemS, newItem, outputAsString,
          openArray, arrayStart, oValue, OPTION_NO_PATHS, ctorEntry,
          pathPart, hz, ho, String.append_assoc];
         try simp [← String.append_assoc])

/-- The default case of `walk`: every serialized node is a bracketed
array opening with its constructor entry, followed by the node's
escaped path string exactly when `includePaths` is set. -/
theorem walkDefaultShape (ip vb : Bool) (f : Nat) (ename : String)
    (attrs : List (String × String)) (path : String)
    (children : List CNode) (st st' : DCW)
    (hn1 : ename ≠ "start") (hn2 : ename ≠ "param") (hn3 : ename ≠ "grammar")
    (hn4 : capitalize ename ≠ "Except")
    (h : walkE ip vb f (.elem ename attrs path children) st = .ok st') :
    ∃ ctor rest, nameToCode (effName st ename) = some ctor ∧
      st'.output = st.output ++ sepStr st ++ "["
        ++ ctorEntry vb (effName st ename) ctor ++ pathPart ip path ++ rest := by
  cases f with
  | zero => simp [walkE] at h
  | succ f =>
    have e1 : (ename == "start") = false := beq_eq_false_iff_ne.mpr hn1
    have e2 : (ename == "param") = false := beq_eq_false_iff_ne.mpr hn2
    have e3 : (ename == "grammar") = false := beq_eq_false_iff_ne.mpr hn3
    have e4 : (capitalize ename == "Except") = false := beq_eq_false_iff_ne.mpr hn4
    simp only [walkE, e1, e2, e3, e4, Bool.false_eq_true, if_false] at h
    rcases hctor : nameToCode (if st.inNameClass && (capitalize ename == "Choice")
        then "NameChoice" else capitalize ename) with _ | ctor
    · rw [hctor] at h
      simp at h
    · rw [hctor] at h
      dsimp only at h
      obtain ⟨st1, hh1, hh2⟩ := bind_ok h
      obtain ⟨tw, htw⟩ := walkInnerE_outExt vb ename attrs children
        (walkE_outExt ip vb f) _ _ hh1
      obtain ⟨tc, htc⟩ := outExt_closeConstruct hh2
      refine ⟨ctor, tw ++ tc, by simpa only [effName] using hctor, ?_⟩
      rw [htc, htw]
      rcases hcs : st.constructState with _ | ⟨top, rest⟩
      · cases ip <;> cases vb <;>
          (simp [newItem, outputAsString, outputItemS, openConstruct, sepStr,
            ctorEntry, pathPart, effName, hcs, String.append_assoc];
           try simp [← String.append_assoc])
      · cases htf : top.first <;> cases ip <;> cases vb <;>
          (simp [newItem, outputAsString, outputItemS, openConstruct, sepStr,
            ctorEntry, pathPart, effName, hcs, htf, String.append_assoc];
           try simp [← String.append_assoc])

/-- C8.  For every element tree serialized by the conversion walker,
the emitted top level is the object `"v": 3, "o": o, "d": ...` where
bit `OPTION_NO_PATHS` of `o` is set exactly when `includePaths` is
false; and every emitted node array carries the node's path string
immediately after its constructor entry exactly when `includePaths` is
true (the path part is empty otherwise). -/
theorem conversion_walker_output_shape (ip vb : Bool) :
    (oValue ip).testBit 0 = !ip ∧
    (∀ (f : Nat) (attrs : List (String × String)) (path : String)
        (children : List CNode) (st' : DCW),
      walkE ip vb f (.elem "grammar" attrs path children) initDCW = .ok st' →
      ∃ g rest, nameToCode "Grammar" = some g ∧
        st'.output = "\x7b\"v\":3,\"o\":" ++ toString (oValue ip) ++ ",\"d\":["
          ++ ctorEntry vb "Grammar" g ++ pathPart ip path ++ rest) ∧
    (∀ (f : Nat) (ename : String) (attrs : List (String × String))
        (path : String) (children : List CNode) (st st' : DCW),
      ename ≠ "start" → ename ≠ "param" → ename ≠ "grammar" →
      capitalize ename ≠ "Except" →
      walkE ip vb f (.elem ename attrs path children) st = .ok st' →
      ∃ ctor rest, nameToCode (effName st ename) = some ctor ∧
        st'.output = st.output ++ sepStr st ++ "["
          ++ ctorEntry vb (effName st ename) ctor ++ pathPart ip path ++ rest) :=
  ⟨by cases ip <;> decide,
   fun f attrs path children st' h =>
     walkGrammarShape ip vb f attrs path children st' h,
   fun f ename attrs path children st st' hn1 hn2 hn3 hn4 h =>
     walkDefaultShape ip vb f ename attrs path children st st' hn1 hn2 hn3 hn4 h⟩

/-- A small grammar tree used by the C8 witness. -/
def c8GrammarTree : CNode :=
  .elem "grammar" [] "/" [.elem "empty" [] "/e" []]

/-- A single node used by the C8 witness. -/
def c8EmptyNode : CNode := .elem "empty" [] "/e" []

/-- Witness for the C8 theorem on concrete trees, with and without
paths. -/
theorem conversion_walker_output_shape_witness :
    (∃ st', walkE false false 5 c8GrammarTree initDCW = .ok st' ∧
      ∃ g rest, nameToCode "Grammar" = some g ∧
        st'.output = "\x7b\"v\":3,\"o\":" ++ toString (oValue false) ++ ",\"d\":["
          ++ ctorEntry false "Grammar" g ++ pathPart false "/" ++ rest) ∧
    (∃ st', walkE true false 3 c8EmptyNode initDCW = .ok st' ∧
      ∃ ctor rest, nameToCode (effName initDCW "empty") = some ctor ∧
        st'.output = initDCW.output ++ sepStr initDCW ++ "["
          ++ ctorEntry false (effName initDCW "empty") ctor
          ++ pathPart true "/e" ++ rest) := by
  constructor
  · have hok : (walkE false false 5 c8GrammarTree initDCW).isOk = true := by
      decide
    cases he : walkE false false 5 c8GrammarTree initDCW with
    | error e =>
      rw [he] at hok
      simp [Except.isOk, Except.toBool] at hok
    | ok st' =>
      have he' : walkE false false 5
          (.elem "grammar" [] "/" [CNode.elem "empty" [] "/e" []]) initDCW
          = .ok st' := he
      exact ⟨st', rfl, ((conversion_walker_output_shape false false).2.1
        5 [] "/" [CNode.elem "empty" [] "/e" []] st' he')⟩
  · have hok : (walkE true false 3 c8EmptyNode initDCW).isOk = true := by
      decide
    cases he : walkE true false 3 c8EmptyNode initDCW with
    | error e =>
      rw [he] at hok
      simp [Except.isOk, Except.toBool] at hok
    | ok st' =>
      have he' : walkE true false 3 (.elem "empty" [] "/e" []) initDCW
          = .ok st' := he
      exact ⟨st', rfl, ((conversion_walker_output_shape true false).2.2
        3 "empty" [] "/e" [] initDCW st'
        (by decide) (by decide) (by decide) (by decide) he')⟩

/-- C9.  The CLI accepts only format version 3: every requested version
below 3 raises a `Fatal` error and the process exits with code 1, and
for every version other than 3 constructing the conversion walker
fails, while version 3 succeeds. -/
theorem format_version_check (n : Int) (includePaths verbose : Bool) :
    (n < 3 → cliFormatVersionExit n = some 1) ∧
    (n ≠ 3 → ∃ e, mkDefaultConversionWalker n includePaths verbose = .error e) ∧
    mkDefaultConversionWalker 3 includePaths verbose
      = .ok (includePaths, verbose) := by
  refine ⟨fun h => ?_, fun h => ?_, by simp [mkDefaultConversionWalker]⟩
  · simp [cliFormatVersionExit, formatVersionFatal, fatalExitCode, h]
  · exact ⟨"DefaultConversionWalker only supports version 3",
      by simp [mkDefaultConversionWalker, h]⟩

/-- Witness for the C9 theorem at versions 2 and 4. -/
theorem format_version_check_witness :
    cliFormatVersionExit 2 = some 1 ∧
    (∃ e, mkDefaultConversionWalker 4 true false = .error e) :=
  ⟨(format_version_check 2 true false).1 (by decide),
   (format_version_check 4 true false).2.1 (by decide)⟩

end Salve
